import Mathlib

/-!
Verification development for the libsigrok Touchstone input module
(src/input/touchstone.c).

The C code is shallowly embedded.  Doubles are modelled as rationals for
everything the parser compares, scales or copies; the transcendental
number-format conversions (convdba, convma, convri, confNF2F) are modelled
symbolically by the inductive type `DV`, which records which conversion was
applied to which raw input value, so that the data-movement behaviour of the
parser stays fully executable and decidable.  Machine integers are `Nat`
with explicit truncation (`% 2 ^ 32`, `% 2 ^ 16`) where the C types
(`uint32_t`, `uint16_t`) make overflow possible.  Strings are `List Char`.
-/

namespace Touchstone

/-! ## sqrti: the binary integer square root (touchstone.c, sqrti) -/

/-- One iteration of the loop body of `sqrti` in touchstone.c.  The state is
`(a, rem, root)`, all `uint32_t` values.  The C body is
`root <<= 1; rem = (rem << 2) | (a >> 30); a <<= 2;
 if (root < rem) { rem -= root | 1; root += 2; }`. -/
def sqrtiStep (s : Nat × Nat × Nat) : Nat × Nat × Nat :=
  let a := s.1
  let root := s.2.2 * 2 % 2 ^ 32
  let rem := (s.2.1 * 4 % 2 ^ 32) ||| a / 2 ^ 30
  let a2 := a * 4 % 2 ^ 32
  if root < rem then (a2, rem - (root ||| 1), root + 2) else (a2, rem, root)

/-- The 16-fold iteration of the `sqrti` loop (`for (int i = 32/2; i > 0; i--)`). -/
def sqrtiLoop : Nat → Nat × Nat × Nat → Nat × Nat × Nat
  | 0, s => s
  | n + 1, s => sqrtiLoop n (sqrtiStep s)

/-- C `sqrti` from touchstone.c: binary integer square root of a `uint32_t`,
returned as `uint16_t` (`return root >> 1`). -/
def sqrti (a : Nat) : Nat :=
  (sqrtiLoop 16 (a % 2 ^ 32, 0, 0)).2.2 / 2 % 2 ^ 16

/-! ## Symbolic double values

Raw tokens parsed from the input are rationals.  The number-format
conversions of touchstone.c apply transcendental functions (`pow`, `atan2`,
`sqrt`, `acos`) to them; we record those applications symbolically so that
the data movement performed by the parser stays decidable.  `undef` stands
for memory the C code never wrote (uninitialized `g_malloc` contents). -/

inductive DV where
  | undef : DV
  | lit : ℚ → DV
  /-- C `*a = pow(10.0, *a / 20.0)` — first half of `convdba`. -/
  | db2lin : DV → DV
  /-- C `*a = *a / 180.0 * acos(-1.0)` — `convma` on the second component. -/
  | deg2rad : DV → DV
  /-- C `*a = sqrt(r*r + i*i)` — `convri` magnitude. -/
  | riMag : DV → DV → DV
  /-- C `*b = atan2(i, r)` with the `(0,0) -> 0` special case — `convri` phase. -/
  | riArg : DV → DV → DV
  /-- C `*a = pow(10.0, *a / 10.0)` — `confNF2F`. -/
  | nfLin : DV → DV
deriving DecidableEq, Repr

/-- C `convdba` from touchstone.c, acting on one complex pair. -/
def convdba (p : DV × DV) : DV × DV := (DV.db2lin p.1, DV.deg2rad p.2)

/-- C `convma` from touchstone.c, acting on one complex pair (the first
component is left unchanged). -/
def convma (p : DV × DV) : DV × DV := (p.1, DV.deg2rad p.2)

/-- C `convri` from touchstone.c, acting on one complex pair.  Both outputs are
computed from the values read before any write, as the C code saves `r` and
`i` into locals first. -/
def convri (p : DV × DV) : DV × DV := (DV.riMag p.1 p.2, DV.riArg p.1 p.2)

/-- C `conv_len(a, conv, N)` from touchstone.c: apply the conversion to the
first `n` complex pairs of the buffer.  The final catch-all arm covers a
buffer shorter than `2*n`, where the C code would read out of bounds; all
call sites in the model use buffers of sufficient length. -/
def conv_len (f : DV × DV → DV × DV) : Nat → List DV → List DV
  | 0, l => l
  | n + 1, a :: b :: t => (f (a, b)).1 :: (f (a, b)).2 :: conv_len f n t
  | _ + 1, l => l

/-- Write `a[dst] = a[src]; a[dst+1] = a[src+1]` (one complex pair).  Both
reads are taken from the incoming buffer; this matches the C statement order
because at every call site `src`, `dst` are even, so `src + 1 ≠ dst`. -/
def copyCell (a : List DV) (src dst : Nat) : List DV :=
  let v0 := a.getD src DV.undef
  let v1 := a.getD (src + 1) DV.undef
  (a.set dst v0).set (dst + 1) v1

/-- The index pairs `(i, j)` with `i < j < N` in the iteration order of the
double loops of `fill_lower` / `fill_upper`
(`for i in [0, N-1) for j in [i+1, N)`). -/
def strictUpperPairs (N : Nat) : List (Nat × Nat) :=
  (List.range (N - 1)).flatMap fun i =>
    (List.range (N - 1 - i)).map fun k => (i, i + 1 + k)

/-- C `fill_lower` from touchstone.c: for each `i < j` copy the complex pair at
row `i`, column `j` onto row `j`, column `i` of the flat `N × N × 2` buffer. -/
def fill_lower (a : List DV) (N : Nat) : List DV :=
  (strictUpperPairs N).foldl
    (fun acc ij => copyCell acc (2 * (ij.1 * N + ij.2)) (2 * (ij.2 * N + ij.1))) a

/-- C `fill_upper` from touchstone.c: the mirror of `fill_lower`. -/
def fill_upper (a : List DV) (N : Nat) : List DV :=
  (strictUpperPairs N).foldl
    (fun acc ij => copyCell acc (2 * (ij.2 * N + ij.1)) (2 * (ij.1 * N + ij.2))) a

/-- C `swap(a, b)` applied to two indices of a flat buffer. -/
def swapIdx (l : List DV) (i j : Nat) : List DV :=
  let vi := l.getD i DV.undef
  let vj := l.getD j DV.undef
  (l.set i vj).set j vi

/-- C `swap21_12` from touchstone.c: `swap(vals+2, vals+4); swap(vals+3, vals+5)`. -/
def swap21_12 (l : List DV) : List DV := swapIdx (swapIdx l 2 4) 3 5

/-! ## Enumerations and the parser context (struct context) -/

inductive ParamKind where
  | KIND_SCATTERING_PARAMETERS
  | KIND_IMPEDANCE_PARAMETERS
  | KIND_ADMITTANCE_PARAMETERS
  | KIND_HYBRID_G_PARAMETERS
  | KIND_HYBRID_H_PARAMETERS
deriving DecidableEq, Repr

inductive NumberFormat where
  | FORMAT_DB_ANGLE
  | FORMAT_MAGNITUDE_ANGLE
  | FORMAT_REAL_IMAGINARY
deriving DecidableEq, Repr

inductive ParserState where
  | PS_START_FILE
  | PS_OPTION_LINE
  | PS_NUM_PORTS
  | PS_KEYWORDS
  | PS_REFERENCES
  | PS_SKIP_INFO
  | PS_DATA_LINES
  | PS_NOISE_DATA
deriving DecidableEq, Repr

inductive TPOrder where
  | TP_ORDER_12_21
  | TP_ORDER_21_12
deriving DecidableEq, Repr

inductive MatrixFormat where
  | MF_FULL
  | MF_LOWER
  | MF_UPPER
deriving DecidableEq, Repr

/-- Return codes: the module only ever returns `SR_OK` or `SR_ERR`. -/
inductive RetCode where
  | SR_OK
  | SR_ERR
deriving DecidableEq, Repr

/-- Consumer-visible effects: the datafeed packets sent through
`sr_session_send` and the session begin/end markers.  `warnExcess` records
the (log-only, non-fatal) `sr_warn` about a too-long data-set. -/
inductive Ev where
  | header
  | frameBegin
  | frameEnd
  | sessionEnd
  | refInfo (rs : List ℚ)
  | freqAxis (fs : List ℚ)
  | sweepData (noise : Bool) (vals : List DV)
  | warnExcess
deriving DecidableEq, Repr

open ParamKind NumberFormat ParserState TPOrder MatrixFormat RetCode

/-- C `struct context` of touchstone.c.  Growable C buffers are modelled by
their live contents: `data_set` holds the `data_set_count` accumulated raw
tokens, `sweep_freq` the `sweep_count` stored frequencies, and `sweep_data`
the corresponding per-point blocks (block `i` occupies
`sweep_data[i*E .. (i+1)*E)` in C).  `sweep_size` mirrors the capacity field
because the noise transition rescales it.  Defaults are the `g_malloc0`
zero state as adjusted by `init()`; C zero-initializes `parameter_kind` to a
value outside its enum, and it is always overwritten by the option line
before any use, so the default chosen here is immaterial. -/
structure Context where
  frequency_unit : ℚ := 0
  last_freq : ℚ := 0
  reference_resistance : ℚ := 0
  reference_resistances : Option (List ℚ) := none
  parameter_kind : ParamKind := KIND_SCATTERING_PARAMETERS
  number_format : NumberFormat := FORMAT_DB_ANGLE
  two_port_data_order : TPOrder := TP_ORDER_21_12
  matrix_format : MatrixFormat := MF_FULL
  sweep_points : Nat := 0
  sweep_points_noise : Nat := 0
  state : ParserState := PS_START_FILE
  num_ports : Nat := 0
  num_references_found : Nat := 0
  num_vals_per_set : Nat := 0
  file_version : Nat := 0
  started : Bool := false
  data_set : List ℚ := []
  sweep_freq : List ℚ := []
  sweep_data : List (List DV) := []
  sweep_size : Nat := 0
deriving DecidableEq, Repr

/-- C `data_set_count`: number of live entries of the accumulating set. -/
def Context.data_set_count (c : Context) : Nat := c.data_set.length

/-- C `sweep_count`: number of stored sweep points. -/
def Context.sweep_count (c : Context) : Nat := c.sweep_freq.length

/-- The context as set up by `init()`. -/
def initContext : Context := {}

/-! ## Character and string helpers (glib / libc semantics on `List Char`) -/

/-- C `g_string_ascii_up` on one character. -/
def asciiUpper (c : Char) : Char :=
  if 'a' ≤ c ∧ c ≤ 'z' then Char.ofNat (c.toNat - 32) else c

/-- C `g_ascii_isspace` / `isspace` for the ASCII range. -/
def gIsSpace (c : Char) : Bool :=
  c = ' ' ∨ c = '\t' ∨ c = '\n' ∨ c = '\x0d' ∨ c = '\x0b' ∨ c = '\x0c'

/-- C `g_strchug`: drop leading whitespace. -/
def chug (l : List Char) : List Char := l.dropWhile gIsSpace

/-- C `g_strchomp`: drop trailing whitespace. -/
def chomp (l : List Char) : List Char := (l.reverse.dropWhile gIsSpace).reverse

/-- C `g_strstrip`. -/
def gstrip (l : List Char) : List Char := chug (chomp l)

/-- C `strip_comment` from touchstone.c: truncate at the first `!`, then strip
surrounding whitespace. -/
def strip_comment (l : List Char) : List Char := gstrip (l.takeWhile (· ≠ '!'))

/-- C `fwd_to` from touchstone.c: when `word` is a prefix of `line`, the rest of
the line after the keyword, with leading whitespace chugged. -/
def fwd_to (line word : List Char) : Option (List Char) :=
  if word.isPrefixOf line then some (chug (line.drop word.length)) else none

/-- C `g_strstr_len` / `strstr`: index of the first occurrence of `pat`. -/
def strstrIdx : List Char → List Char → Option Nat
  | [], pat => if pat = [] then some 0 else none
  | c :: t, pat =>
    if pat.isPrefixOf (c :: t) then some 0 else (strstrIdx t pat).map (· + 1)

/-- Substring containment, `g_strstr_len(s, -1, pat) != NULL`. -/
def containsStr (hay pat : List Char) : Bool := (strstrIdx hay pat).isSome

/-- C `g_strsplit(l, sep, 0)` for a single-character separator: split on every
occurrence, keeping empty fields. -/
def splitOnChar (sep : Char) (l : List Char) : List (List Char) :=
  l.foldr
    (fun ch acc =>
      match acc with
      | [] => [[ch]]
      | g :: gs => if ch = sep then [] :: g :: gs else (ch :: g) :: gs)
    [[]]

/-- C `g_strrstr_len`: index of the last occurrence of a character. -/
def rfindChar : List Char → Char → Option Nat
  | [], _ => none
  | a :: t, c =>
    match rfindChar t c with
    | some i => some (i + 1)
    | none => if a = c then some 0 else none

/-! ## Number parsing

`sr_atod` and `sr_atoi` live in libsigrok's strutil.c, which is not part of
the sources under verification. -/

/-- Consume leading decimal digits, returning their value, how many there
were, and the rest. -/
def parseDigits : List Char → Nat → Nat → Nat × Nat × List Char
  | c :: t, acc, cnt =>
    if c.isDigit then parseDigits t (acc * 10 + (c.toNat - 48)) (cnt + 1)
    else (acc, cnt, c :: t)
  | [], acc, cnt => (acc, cnt, [])

/-- Consume an optional sign; `true` means negative. -/
def parseSign : List Char → Bool × List Char
  | '-' :: t => (true, t)
  | '+' :: t => (false, t)
  | l => (false, l)

/-- Rational multiplication through `mkRat`.  The lemma `qmul_eq_mul` below
shows it agrees with `Rat.mul`; the model uses it because Batteries marks
`Rat.mul` irreducible, which would block kernel evaluation of concrete
parser runs. -/
def qmul (a b : ℚ) : ℚ := mkRat (a.num * b.num) (a.den * b.den)

/-- Modelled from the spec: `strtod` on the decimal subset of §4.5/§6
("parses each token as a decimal floating-point number"): optional sign,
digits with optional fraction, optional exponent introduced by `E` (input is
ASCII-uppercased before parsing; lowercase `e` is also accepted for use
before normalization).  Returns the value and the unconsumed rest, or `none`
when no number could be parsed at all.  An exponent letter with no digits
after it is not consumed, as with `strtod`.  The value
`± (ipart·10^fcnt + fpart) · 10^(±exp) / 10^fcnt` is assembled with `mkRat`
so that it kernel-evaluates. -/
def strtodPfx (l : List Char) : Option (ℚ × List Char) :=
  let s := parseSign l
  let ip := parseDigits s.2 0 0
  let fp : Nat × Nat × List Char :=
    match ip.2.2 with
    | '.' :: t => parseDigits t 0 0
    | _ => (0, 0, ip.2.2)
  if ip.2.1 + fp.2.1 = 0 then none
  else
    let m : Int := ((ip.1 * 10 ^ fp.2.1 + fp.1 : Nat) : Int)
    let m : Int := if s.1 then -m else m
    let den : Nat := 10 ^ fp.2.1
    match fp.2.2 with
    | e :: t =>
      if e = 'E' ∨ e = 'e' then
        let es := parseSign t
        let ed := parseDigits es.2 0 0
        if ed.2.1 = 0 then some (mkRat m den, fp.2.2)
        else if es.1 then some (mkRat m (den * 10 ^ ed.1), ed.2.2)
        else some (mkRat (m * 10 ^ ed.1) den, ed.2.2)
      else some (mkRat m den, fp.2.2)
    | [] => some (mkRat m den, [])

/-- Modelled from the spec: `sr_atod` (libsigrok strutil.c, not under src/):
`strtod`, then the token must be fully consumed up to trailing whitespace,
otherwise a parse error (§4.3: "a malformed numeric after `R` fails the line
with a parse error"; §4.5: "any parse failure fails the line"). -/
def sr_atod (l : List Char) : Option ℚ :=
  match strtodPfx l with
  | none => none
  | some (v, rest) => if rest.dropWhile gIsSpace = [] then some v else none

/-- Modelled from the spec: `sr_atoi` (libsigrok strutil.c, not under src/):
`strtol` with the same full-consumption rule, for the integer keyword
arguments (§4.4). -/
def sr_atoi (l : List Char) : Option Int :=
  let s := parseSign l
  let d := parseDigits s.2 0 0
  if d.2.1 = 0 then none
  else if d.2.2.dropWhile gIsSpace = [] then
    some (if s.1 then -(d.1 : Int) else (d.1 : Int))
  else none

/-- C `int` to `size_t` conversion (e.g. `inc->num_ports = ival`). -/
def intToSize (i : Int) : Nat := (i % 2 ^ 64).toNat

/-! ## Emitters and the sweep store -/

/-- C `send_reference_information` from touchstone.c: build (and store) the
per-port reference-resistance vector and publish it.  `g_malloc` failure is
not modelled (glib aborts instead of returning NULL), so this always
succeeds. -/
def send_reference_information (c : Context) : Context × List Ev :=
  let rs :=
    match c.reference_resistances with
    | none => List.replicate c.num_ports c.reference_resistance
    | some rs => rs
  let rs :=
    if 1 < c.file_version ∧ c.parameter_kind ≠ KIND_SCATTERING_PARAMETERS then
      List.replicate c.num_ports 1
    else rs
  ({ c with reference_resistances := some rs }, [Ev.refInfo rs])

/-- C `send_sweep_information` from touchstone.c: if any sweep points are
stored, publish the frequency axis and then the data blocks (flattened, as
they are laid out contiguously in C), and reset `sweep_count` to 0. -/
def send_sweep_information (c : Context) : Context × List Ev :=
  if c.sweep_count = 0 then (c, [])
  else
    ({ c with sweep_freq := [], sweep_data := [] },
     [Ev.freqAxis c.sweep_freq,
      Ev.sweepData (c.state = PS_NOISE_DATA) c.sweep_data.flatten])

/-- C `prepare_sweep_mem` from touchstone.c, reduced to its capacity
(`sweep_size`) bookkeeping; the buffers themselves are modelled by their
live contents.  `INITIAL_DATA_SET_SIZE` is 512. -/
def prepare_sweep_mem (c : Context) : Context :=
  if c.sweep_size = 0 then
    { c with
       sweep_size :=
         if 1 < c.file_version ∧ 0 < c.sweep_points then c.sweep_points
         else 512 }
  else if c.sweep_count = c.sweep_size then
    { c with sweep_size := c.sweep_size + 512 }
  else c

/-- C `memcpy(l + offs, vals, ...)` on a flat buffer (out-of-range writes are
dropped, matching `List.set`; all modelled writes are in range). -/
def writeSeq (l : List DV) (offs : Nat) : List DV → List DV
  | [] => l
  | v :: vs => writeSeq (l.set offs v) (offs + 1) vs

/-- The `MF_UPPER` copy loop of `move_data_to_sweep`: for each row `i`, copy
`row_len = 2*(N-i)` doubles from the running `data_set` index (starting at 1)
to block offset `i*(N+1)*2`. -/
def copyUpper (N : Nat) (ds : List ℚ) (blk : List DV) : List DV :=
  ((List.range N).foldl
    (fun s i =>
      let row_len := 2 * (N - i)
      let offs := i * (N + 1) * 2
      (s.1 + row_len, writeSeq s.2 offs (((ds.drop s.1).take row_len).map DV.lit)))
    (1, blk)).2

/-- The `MF_LOWER` copy loop of `move_data_to_sweep`: for each row `i`, copy
`row_len = 2*(i+1)` doubles from the running `data_set` index (starting at 1)
to block offset `i*N*2`. -/
def copyLower (N : Nat) (ds : List ℚ) (blk : List DV) : List DV :=
  ((List.range N).foldl
    (fun s i =>
      let row_len := 2 * (i + 1)
      let offs := i * N * 2
      (s.1 + row_len, writeSeq s.2 offs (((ds.drop s.1).take row_len).map DV.lit)))
    (1, blk)).2

/-- The in-place noise conversions of `move_data_to_sweep`:
`confNF2F(&data_set[1])` rewrites index 1 and `convma(&data_set[2])`
rewrites index 3 (the second element of the pair starting at index 2).  In C
these mutate `data_set` immediately before the copy and the set is then
discarded (`data_set_count = 0`), so converting on the way out is
observationally identical. -/
def noiseConverted (ds : List ℚ) : List DV :=
  ds.enum.map fun p =>
    if p.1 = 1 then DV.nfLin (DV.lit p.2)
    else if p.1 = 3 then DV.deg2rad (DV.lit p.2)
    else DV.lit p.2

/-- C `move_data_to_sweep` from touchstone.c. -/
def move_data_to_sweep (c : Context) : RetCode × Context :=
  let data_set_entries :=
    if c.state = PS_NOISE_DATA then 5 else c.num_ports * c.num_ports * 2
  let new_freq := c.data_set.getD 0 0
  if c.num_ports = 0 then (SR_ERR, c)
  else
    let c := prepare_sweep_mem c
    let freq_entry := qmul new_freq c.frequency_unit
    let blk0 : List DV := List.replicate data_set_entries DV.undef
    let blk :=
      if c.state = PS_DATA_LINES then
        let blk :=
          if c.matrix_format = MF_FULL then
            writeSeq blk0 0
              (((c.data_set.drop 1).take (c.num_vals_per_set - 1)).map DV.lit)
          else if c.matrix_format = MF_UPPER then
            copyUpper c.num_ports c.data_set blk0
          else
            copyLower c.num_ports c.data_set blk0
        let conv :=
          match c.number_format with
          | FORMAT_DB_ANGLE => convdba
          | FORMAT_MAGNITUDE_ANGLE => convma
          | FORMAT_REAL_IMAGINARY => convri
        let blk := conv_len conv (c.num_vals_per_set / 2) blk
        let blk :=
          if c.matrix_format = MF_UPPER then fill_lower blk c.num_ports
          else if c.matrix_format = MF_LOWER then fill_upper blk c.num_ports
          else blk
        if c.num_ports = 2 ∧ c.two_port_data_order = TP_ORDER_21_12 then
          swap21_12 blk
        else blk
      else
        writeSeq blk0 0
          (((noiseConverted c.data_set).drop 1).take (c.num_vals_per_set - 1))
    (SR_OK,
     { c with
        sweep_freq := c.sweep_freq ++ [freq_entry],
        last_freq := new_freq,
        sweep_data := c.sweep_data ++ [blk],
        data_set := [] })

/-- C `add_data_to_set` from touchstone.c (allocation always succeeds). -/
def add_data_to_set (c : Context) (vals : List ℚ) : Context :=
  { c with data_set := c.data_set ++ vals }

/-- C `calc_num_ports` from touchstone.c: freeze `num_vals_per_set` at the
accumulated count, take `num_ports = sqrti(num_vals_per_set / 2)` (the
argument is a `size_t` converted to `uint32_t`, handled inside `sqrti`), and
fail unless `num_ports² · 2 + 1` matches.  Both fields are written even on
failure, as in C. -/
def calc_num_ports (c : Context) : RetCode × Context :=
  let nvps := c.data_set_count
  let np := sqrti (nvps / 2)
  let c := { c with num_vals_per_set := nvps, num_ports := np }
  if np * np * 2 + 1 ≠ nvps then (SR_ERR, c) else (SR_OK, c)

/-! ## Data lines -/

/-- The token loop of `parse_data_line_numbers`: skip empty fields, parse the
rest with `sr_atod`, fail on the first unparsable token. -/
def parseTokens : List (List Char) → Option (List ℚ)
  | [] => some []
  | t :: ts =>
    if t = [] then parseTokens ts
    else
      match sr_atod (chug t) with
      | none => none
      | some v => (parseTokens ts).map (v :: ·)

/-- C `parse_data_line_numbers` from touchstone.c: `g_strsplit` on single
spaces, then the token loop. -/
def parse_data_line_numbers (line : List Char) : Option (List ℚ) :=
  parseTokens (splitOnChar ' ' line)

/-- The version-1 port-count inference block at the top of
`parse_data_line` (lines 727-741 of touchstone.c): when no port count is
known yet and a version-1 line of odd length arrives on a non-empty
accumulator, the accumulated set is declared complete: infer the port
count, publish the reference resistances, and move the set to the sweep. -/
def pdl_infer (c : Context) (vals : List ℚ) : RetCode × Context × List Ev :=
  if c.num_ports = 0 ∧ c.file_version = 1 ∧ 0 < c.data_set_count
      ∧ vals.length % 2 = 1 then
    match calc_num_ports c with
    | (SR_ERR, c1) => (SR_ERR, c1, [])
    | (SR_OK, c1) =>
      let rr := send_reference_information c1
      match move_data_to_sweep rr.1 with
      | (SR_ERR, c3) => (SR_ERR, c3, rr.2)
      | (SR_OK, c3) => (SR_OK, c3, rr.2)
  else (SR_OK, c, [])

/-- The version-1 noise-boundary heuristic of `parse_data_line` (lines
749-759 of touchstone.c): in DATA_LINES, once a sweep point exists and the
accumulator has started a new set, `last_freq >= data_set[0]` flushes the
sweep, rescales the capacity by `2N²/5`, and switches to noise mode.  The
return value of the flush is ignored by the C code. -/
def pdl_noise_check (c2 : Context) : Context × List Ev :=
  if c2.file_version = 1 ∧ c2.state = PS_DATA_LINES
      ∧ 0 < c2.sweep_count ∧ 0 < c2.data_set_count
      ∧ c2.data_set.getD 0 0 ≤ c2.last_freq then
    let fl := send_sweep_information c2
    ({ fl.1 with
        sweep_size := fl.1.sweep_size * fl.1.num_ports * fl.1.num_ports * 2 / 5,
        state := PS_NOISE_DATA,
        num_vals_per_set := 5 }, fl.2)
  else (c2, ([] : List Ev))

/-- The set-completion block of `parse_data_line` (lines 761-770 of
touchstone.c): when the expected set length is known, warn if it was
exceeded and move the completed set to the sweep. -/
def pdl_complete (c3 : Context) : RetCode × Context × List Ev :=
  if 0 < c3.num_vals_per_set then
    let warn : List Ev :=
      if c3.num_vals_per_set < c3.data_set_count then [Ev.warnExcess] else []
    if c3.num_vals_per_set ≤ c3.data_set_count then
      match move_data_to_sweep c3 with
      | (SR_OK, c4) => (SR_OK, c4, warn)
      | (SR_ERR, c4) => (SR_ERR, c4, warn)
    else (SR_OK, c3, warn)
  else (SR_OK, c3, [])

/-- C `parse_data_line` from touchstone.c: tokenize, run the version-1
inference block, append the tokens to the accumulating set, run the
version-1 noise heuristic, then the completion check. -/
def parse_data_line (c : Context) (line : List Char) : RetCode × Context × List Ev :=
  match parse_data_line_numbers line with
  | none => (SR_ERR, c, [])
  | some vals =>
    if vals.length = 0 then (SR_OK, c, [])
    else
      match pdl_infer c vals with
      | (SR_ERR, c1, evs) => (SR_ERR, c1, evs)
      | (SR_OK, c1, evs1) =>
        let nz := pdl_noise_check (add_data_to_set c1 vals)
        match pdl_complete nz.1 with
        | (r, c4, evs3) => (r, c4, evs1 ++ nz.2 ++ evs3)

/-! ## Version, option and keyword lines -/

/-- C `parse_version_line` from touchstone.c: require the `[VERSION]` keyword,
then accept exactly the strings whose chugged argument starts with `2.0`
(`g_str_has_prefix`). -/
def parse_version_line (c : Context) (version_line : List Char) : RetCode × Context :=
  let kw := ("[VERSION]" : String).toList
  if kw.isPrefixOf version_line then
    if ("2.0" : String).toList.isPrefixOf (chug (version_line.drop kw.length)) then
      (SR_OK, { c with file_version := 2 })
    else (SR_ERR, c)
  else (SR_ERR, c)

/-- The frequency-unit scan of `parse_option_line`: find `HZ ` and inspect
the character before it (there is always at least one, since the leading `#`
was replaced by a space); `none` means the unknown-prefix error. -/
def freqUnitOf (s : List Char) : Option ℚ :=
  match strstrIdx s (("HZ " : String).toList) with
  | none => some 1000000000
  | some p =>
    match s.getD (p - 1) ' ' with
    | 'K' => some 1000
    | 'M' => some 1000000
    | 'G' => some 1000000000
    | ' ' => some 1
    | _ => none

/-- C `parse_option_line` from touchstone.c.  The line's first character (`#`)
is replaced by a space and a space is appended, then the unit, number
format, parameter kind and reference resistance are scanned by substring
search.  A failing `sr_atod` after ` R ` yields an error, but the fields
already parsed stay modified, as in C. -/
def parse_option_line (c : Context) (option_line : List Char) : RetCode × Context :=
  let s := (' ' :: option_line.drop 1) ++ [' ']
  match freqUnitOf s with
  | none => (SR_ERR, c)
  | some u =>
    let c := { c with frequency_unit := u }
    let c :=
      { c with
         number_format :=
           if containsStr s ((" DB " : String).toList) then FORMAT_DB_ANGLE
           else if containsStr s ((" MA " : String).toList) then FORMAT_MAGNITUDE_ANGLE
           else if containsStr s ((" RI " : String).toList) then FORMAT_REAL_IMAGINARY
           else FORMAT_MAGNITUDE_ANGLE }
    let c :=
      { c with
         parameter_kind :=
           if containsStr s ((" S " : String).toList) then KIND_SCATTERING_PARAMETERS
           else if containsStr s ((" Y " : String).toList) then KIND_ADMITTANCE_PARAMETERS
           else if containsStr s ((" Z " : String).toList) then KIND_IMPEDANCE_PARAMETERS
           else if containsStr s ((" G " : String).toList) then KIND_HYBRID_G_PARAMETERS
           else if containsStr s ((" H " : String).toList) then KIND_HYBRID_H_PARAMETERS
           else KIND_SCATTERING_PARAMETERS }
    match strstrIdx s ((" R " : String).toList) with
    | some p =>
      match sr_atod (chug (s.drop (p + 3))) with
      | some v => (SR_OK, { c with reference_resistance := v })
      | none => (SR_ERR, c)
    | none => (SR_OK, { c with reference_resistance := 50 })

/-- The token loop of `parse_references`: parse up to `num_ports` reference
resistances into the (already allocated) array, skipping empty fields and
stopping at the first parse failure. -/
def refLoop (c : Context) : List (List Char) → RetCode × Context
  | [] => (SR_OK, c)
  | t :: ts =>
    if c.num_references_found < c.num_ports then
      if t = [] then refLoop c ts
      else
        match sr_atod t with
        | none => (SR_ERR, c)
        | some v =>
          refLoop
            { c with
               reference_resistances :=
                 some ((c.reference_resistances.getD []).set c.num_references_found v),
               num_references_found := c.num_references_found + 1 } ts
    else (SR_OK, c)

/-- C `parse_references` from touchstone.c. -/
def parse_references (c : Context) (line : List Char) : RetCode × Context × List Ev :=
  match refLoop c (splitOnChar ' ' line) with
  | (SR_ERR, c) => (SR_ERR, c, [])
  | (SR_OK, c) =>
    if c.num_references_found = c.num_ports then
      let rr := send_reference_information { c with state := PS_KEYWORDS }
      (SR_OK, rr.1, rr.2)
    else (SR_OK, c, [])

/-- C `parse_key_line` from touchstone.c.  Unrecognized bracketed keywords fall
through all branches and are silently accepted. -/
def parse_key_line (c : Context) (line : List Char) : RetCode × Context × List Ev :=
  if let some p := fwd_to line (("[NUMBER OF PORTS]" : String).toList) then
    match sr_atoi p with
    | none => (SR_ERR, c, [])
    | some ival =>
      let np := intToSize ival
      (SR_OK, { c with num_ports := np, num_vals_per_set := np * np * 2 + 1 }, [])
  else if let some p := fwd_to line (("[TWO-PORT ORDER]" : String).toList) then
    if containsStr p (("12_21" : String).toList) then
      (SR_OK, { c with two_port_data_order := TP_ORDER_12_21 }, [])
    else if containsStr p (("21_12" : String).toList) then
      (SR_OK, { c with two_port_data_order := TP_ORDER_21_12 }, [])
    else (SR_ERR, c, [])
  else if let some p := fwd_to line (("[NUMBER OF FREQUENCIES]" : String).toList) then
    match sr_atoi p with
    | none => (SR_ERR, c, [])
    | some ival => (SR_OK, { c with sweep_points := intToSize ival }, [])
  else if let some p := fwd_to line (("[NUMBER OF NOISE FREQUENCIES]" : String).toList) then
    match sr_atoi p with
    | none => (SR_ERR, c, [])
    | some ival => (SR_OK, { c with sweep_points_noise := intToSize ival }, [])
  else if let some p := fwd_to line (("[REFERENCE]" : String).toList) then
    if c.num_ports = 0 then (SR_ERR, c, [])
    else
      parse_references
        { c with
           reference_resistances := some (List.replicate c.num_ports 0),
           num_references_found := 0,
           state := PS_REFERENCES } p
  else if let some p := fwd_to line (("[MATRIX FORMAT]" : String).toList) then
    if c.num_ports = 0 then (SR_ERR, c, [])
    else
      let mf? : Option MatrixFormat :=
        if containsStr p (("FULL" : String).toList) then some MF_FULL
        else if containsStr p (("LOWER" : String).toList) then some MF_LOWER
        else if containsStr p (("UPPER" : String).toList) then some MF_UPPER
        else none
      match mf? with
      | none => (SR_ERR, c, [])
      | some mf =>
        (SR_OK,
         { c with
            matrix_format := mf,
            num_vals_per_set :=
              if mf = MF_FULL then 2 * c.num_ports * c.num_ports + 1
              else c.num_ports * c.num_ports + c.num_ports + 1 }, [])
  else if (fwd_to line (("[MIXED-MODE ORDER]" : String).toList)).isSome then
    (SR_ERR, c, [])
  else if (fwd_to line (("[BEGIN INFORMATION]" : String).toList)).isSome then
    (SR_OK, { c with state := PS_SKIP_INFO }, [])
  else if (fwd_to line (("[NETWORK DATA]" : String).toList)).isSome then
    if c.num_ports = 0 then (SR_ERR, c, [])
    else (SR_OK, { c with state := PS_DATA_LINES }, [])
  else (SR_OK, c, [])

/-! ## The state machine (process_line) -/

/-- The shared tail of the `PS_DATA_LINES` / `PS_NOISE_DATA` cases of
`process_line` (the C code falls through): `[END]` flushes, anything else is
a data line. -/
def dataOrEnd (c : Context) (line : List Char) : RetCode × Context × List Ev :=
  if line.getD 0 '\x00' = '[' ∧ (fwd_to line (("[END]" : String).toList)).isSome then
    let fl := send_sweep_information c
    (SR_OK, fl.1, fl.2)
  else parse_data_line c line

/-- C `process_line` from touchstone.c. -/
def process_line (c : Context) (line : List Char) : RetCode × Context × List Ev :=
  if (c.state ≠ PS_START_FILE ∧ c.state ≠ PS_OPTION_LINE)
      ∧ line.getD 0 '\x00' = '#' then
    (SR_OK, c, [])
  else
    match c.state with
    | PS_START_FILE =>
      if line.getD 0 '\x00' = '#' then
        let r := parse_option_line { c with file_version := 1, state := PS_DATA_LINES } line
        (r.1, r.2, [])
      else if line.getD 0 '\x00' = '[' then
        let r := parse_version_line { c with state := PS_OPTION_LINE } line
        (r.1, r.2, [])
      else (SR_ERR, c, [])
    | PS_OPTION_LINE =>
      if line.getD 0 '\x00' ≠ '#' then (SR_ERR, c, [])
      else
        let r := parse_option_line { c with state := PS_NUM_PORTS } line
        (r.1, r.2, [])
    | PS_NUM_PORTS =>
      if line.getD 0 '\x00' ≠ '[' then (SR_ERR, c, [])
      else parse_key_line { c with state := PS_KEYWORDS } line
    | PS_KEYWORDS =>
      if line.getD 0 '\x00' = '[' then parse_key_line c line
      else parse_data_line { c with state := PS_DATA_LINES } line
    | PS_REFERENCES => parse_references c line
    | PS_SKIP_INFO =>
      if (fwd_to line (("[END INFORMATION]" : String).toList)).isSome then
        (SR_OK, { c with state := PS_KEYWORDS }, [])
      else (SR_OK, c, [])
    | PS_DATA_LINES =>
      if line.getD 0 '\x00' = '['
          ∧ (fwd_to line (("[NOISE DATA]" : String).toList)).isSome then
        if c.num_ports ≠ 2 then (SR_ERR, c, [])
        else
          let fl := send_sweep_information c
          (SR_OK,
           { fl.1 with
              sweep_size := fl.1.sweep_size * fl.1.num_ports * fl.1.num_ports * 2 / 5,
              state := PS_NOISE_DATA,
              num_vals_per_set := 5 }, fl.2)
      else dataOrEnd c line
    | PS_NOISE_DATA => dataOrEnd c line

/-! ## The chunk layer (process_buffer, receive, end) -/

/-- The module-level input state: the parser context plus the byte buffer
(`in->buf`) and the `sdi_ready` flag of `struct sr_input`. -/
structure SrInput where
  ctx : Context := initContext
  buf : List Char := []
  sdi_ready : Bool := false
deriving DecidableEq, Repr

/-- The input state right after `init()`. -/
def initInput : SrInput := {}

/-- The in-place normalization of `process_buffer`: ASCII uppercase, then
tabs to spaces, then carriage returns to newlines. -/
def normalizeBuf (l : List Char) : List Char :=
  ((l.map asciiUpper).map fun c => if c = '\t' then ' ' else c).map
    fun c => if c = '\x0d' then '\n' else c

/-- The line loop of `process_buffer`: strip comments, skip empty lines,
hand the rest to `process_line`, stopping at the first error.  The last
component collects the lines actually delivered to `process_line`, in
order (observational instrumentation; the C loop makes exactly these
calls). -/
def processLines (c : Context) :
    List (List Char) → RetCode × Context × List Ev × List (List Char)
  | [] => (SR_OK, c, [], [])
  | l :: ls =>
    let l2 := strip_comment l
    if l2 = [] then processLines c ls
    else
      match process_line c l2 with
      | (SR_OK, c2, evs) =>
        let r := processLines c2 ls
        (r.1, r.2.1, evs ++ r.2.2.1, l2 :: r.2.2.2)
      | (SR_ERR, c2, evs) => (SR_ERR, c2, evs, [l2])

/-- C `process_buffer` from touchstone.c.  Returns the result code, the new
input state, the published events, and (instrumentation) the lines fed to
`process_line`. -/
def process_buffer (inp : SrInput) (is_eof : Bool) :
    RetCode × SrInput × List Ev × List (List Char) :=
  let startEvs : List Ev := if inp.ctx.started then [] else [Ev.header, Ev.frameBegin]
  let c := { inp.ctx with started := true }
  if inp.buf = [] then (SR_OK, { inp with ctx := c }, startEvs, [])
  else
    let norm := normalizeBuf inp.buf
    if is_eof then
      let r := processLines c (splitOnChar '\n' norm)
      (r.1, { inp with ctx := r.2.1, buf := [] }, startEvs ++ r.2.2.1, r.2.2.2)
    else
      match rfindChar norm '\n' with
      | none => (SR_OK, { inp with ctx := c, buf := norm }, startEvs, [])
      | some p =>
        let r := processLines c (splitOnChar '\n' (norm.take p))
        (r.1, { inp with ctx := r.2.1, buf := norm.drop (p + 1) },
         startEvs ++ r.2.2.1, r.2.2.2)

/-- C `receive` from touchstone.c: append the chunk; the first call only marks
`sdi_ready` and returns, later calls flush the buffer. -/
def receive (inp : SrInput) (chunk : List Char) : RetCode × SrInput × List Ev :=
  let inp := { inp with buf := inp.buf ++ chunk }
  if !inp.sdi_ready then (SR_OK, { inp with sdi_ready := true }, [])
  else
    let r := process_buffer inp false
    (r.1, r.2.1, r.2.2.1)

/-- C `end` from touchstone.c.  Note a C quirk kept by the model: the
version-1 final-inference block runs, and overwrites `ret`, even when
`process_buffer` failed. -/
def endInput (inp : SrInput) : RetCode × SrInput × List Ev :=
  let r0 : RetCode × SrInput × List Ev :=
    if inp.sdi_ready then
      let r := process_buffer inp true
      (r.1, r.2.1, r.2.2.1)
    else (SR_OK, inp, [])
  let inp1 := r0.2.1
  let v1r : RetCode × Context × List Ev :=
    if inp1.ctx.file_version = 1 ∧ inp1.ctx.num_ports = 0
        ∧ 0 < inp1.ctx.data_set_count then
      match calc_num_ports inp1.ctx with
      | (SR_ERR, c1) => (SR_ERR, c1, [])
      | (SR_OK, c1) =>
        let rr := send_reference_information c1
        match move_data_to_sweep rr.1 with
        | (SR_ERR, c3) => (SR_ERR, c3, rr.2)
        | (SR_OK, c3) => (SR_OK, c3, rr.2)
    else (r0.1, inp1.ctx, [])
  let last : Context × List Ev :=
    if v1r.1 = SR_OK then send_sweep_information v1r.2.1 else (v1r.2.1, [])
  (v1r.1, { inp1 with ctx := last.1 },
   r0.2.2 ++ v1r.2.2 ++ last.2 ++ [Ev.frameEnd]
     ++ (if last.1.started then [Ev.sessionEnd] else []))

/-- The logical lines of a flushed prefix: split on newlines, strip
comments and whitespace, drop empties — exactly the lines reaching
`process_line`. -/
def cleanLines (s : List Char) : List (List Char) :=
  ((splitOnChar '\n' s).map strip_comment).filter (fun l => !l.isEmpty)

/-! ## Sanity checks (kernel-evaluated) -/

example : sqrti 0 = 0 := by decide
example : sqrti 1 = 1 := by decide
example : sqrti 3 = 1 := by decide
example : sqrti 4 = 2 := by decide
example : sqrti 5 = 2 := by decide
example : sqrti 9 = 3 := by decide
example : sqrti 10000 = 100 := by decide

example : splitOnChar ' ' ("a  bc" : String).toList
    = [['a'], [], ['b', 'c']] := by decide
example : rfindChar ("ab\nc\nd" : String).toList '\n' = some 4 := by decide
example : strstrIdx ("xabca" : String).toList ("ab" : String).toList
    = some 1 := by decide

example : sr_atod ("50 " : String).toList = some 50 := by decide
example : sr_atod ("-2.5" : String).toList = some (mkRat (-5) 2) := by decide
example : sr_atod ("1E9" : String).toList = some 1000000000 := by decide
example : sr_atod (".5" : String).toList = some (mkRat 1 2) := by decide
example : sr_atod ("1E" : String).toList = none := by decide
example : sr_atod ("abc" : String).toList = none := by decide
example : sr_atoi ("3" : String).toList = some 3 := by decide

/-- The kernel-evaluable product `qmul` agrees with rational
multiplication. -/
theorem qmul_eq_mul (a b : ℚ) : qmul a b = a * b := by
  unfold qmul
  rw [Rat.mkRat_eq_div]
  push_cast
  rw [← div_mul_div_comm, Rat.num_div_den, Rat.num_div_den]

example :
    (processLines initContext
      [("# HZ S MA R 50" : String).toList, ("1 5 6" : String).toList,
       ("2 7 8" : String).toList, ("2 9 10" : String).toList]).2.1.state
    = PS_NOISE_DATA := by decide

example :
    (endInput (receive initInput
        (("# HZ S MA R 50\n0 0.5 90\n" : String).toList)).2.1).1 = SR_OK := by
  decide

example :
    Ev.freqAxis [0] ∈
      (endInput (receive initInput
        (("# HZ S MA R 50\n0 0.5 90\n" : String).toList)).2.1).2.2 := by
  decide

/-! ## Correctness of sqrti -/

theorem sqrtiLoop_succ (n : Nat) (s : Nat × Nat × Nat) :
    sqrtiLoop (n + 1) s = sqrtiLoop n (sqrtiStep s) := rfl

theorem lor_small (k x c : Nat) (h : c < 2 ^ k) :
    (2 ^ k * x) ||| c = 2 ^ k * x + c :=
  (Nat.mul_add_lt_is_or h x).symm

/-- Loop invariant for `sqrti`: with `i` iterations to go, `p` the value of
the already consumed bit-pairs and `y` the remaining `2*i` bits, the loop
returns twice the integer square root of the full input. -/
theorem sqrtiLoop_inv :
    ∀ i p y : Nat, i ≤ 16 → p < 4 ^ (16 - i) → y < 4 ^ i →
      (sqrtiLoop i
          (y * 2 ^ (32 - 2 * i), p - Nat.sqrt p * Nat.sqrt p, 2 * Nat.sqrt p)).2.2
        = 2 * Nat.sqrt (p * 4 ^ i + y) := by
  intro i
  induction i with
  | zero =>
    intro p y _ _ hy
    have hy0 : y = 0 := by omega
    simp [sqrtiLoop, hy0]
  | succ i ih =>
    intro p y hi hp hy
    have hi15 : i ≤ 15 := by omega
    have hle : Nat.sqrt p * Nat.sqrt p ≤ p := Nat.sqrt_le p
    have hlt : p < (Nat.sqrt p + 1) * (Nat.sqrt p + 1) := Nat.lt_succ_sqrt p
    set s0 := Nat.sqrt p with hs0
    have hlt2 : p < s0 * s0 + 2 * s0 + 1 := by
      have he : (s0 + 1) * (s0 + 1) = s0 * s0 + 2 * s0 + 1 := by ring
      omega
    have h4split : (4 : Nat) ^ (15 - i) = 2 ^ (15 - i) * 2 ^ (15 - i) := by
      rw [show (4 : Nat) = 2 * 2 by norm_num, Nat.mul_pow]
    have hp15 : p < 4 ^ (15 - i) := by
      have h1615 : 16 - (i + 1) = 15 - i := by omega
      rwa [h1615] at hp
    have hs0lt : s0 < 2 ^ (15 - i) := Nat.sqrt_lt.mpr (by rw [← h4split]; exact hp15)
    have hs0lt15 : s0 < 2 ^ 15 :=
      lt_of_lt_of_le hs0lt (Nat.pow_le_pow_right (by norm_num) (by omega))
    have hpow4 : (0 : Nat) < 4 ^ i := pow_pos (by norm_num) i
    -- the incoming `a` value and the extracted bit pair
    have hexp : 32 - 2 * (i + 1) = 30 - 2 * i := by omega
    have h2i4 : (2 : Nat) ^ (2 * i) = 4 ^ i := by
      rw [Nat.pow_mul]
    have hasplit : (2 : Nat) ^ 30 = 2 ^ (30 - 2 * i) * 4 ^ i := by
      calc (2 : Nat) ^ 30 = 2 ^ ((30 - 2 * i) + 2 * i) := by congr 1; omega
        _ = 2 ^ (30 - 2 * i) * 2 ^ (2 * i) := Nat.pow_add 2 _ _
        _ = 2 ^ (30 - 2 * i) * 4 ^ i := by rw [h2i4]
    have hc_def : y * 2 ^ (30 - 2 * i) / 2 ^ 30 = y / 4 ^ i := by
      rw [hasplit, ← Nat.div_div_eq_div_mul,
        Nat.mul_div_cancel _ (pow_pos (by norm_num) _)]
    have hc_lt : y / 4 ^ i < 4 := by
      rw [Nat.div_lt_iff_lt_mul hpow4]
      calc y < 4 ^ (i + 1) := hy
        _ = 4 * 4 ^ i := by rw [Nat.pow_succ, Nat.mul_comm]
    set c := y / 4 ^ i with hc
    -- the three updated components of the step
    have hroot : 2 * s0 * 2 % 2 ^ 32 = 4 * s0 := by
      rw [Nat.mod_eq_of_lt (by omega)]
      ring
    have hremnoov : (p - s0 * s0) * 4 % 2 ^ 32 = (p - s0 * s0) * 4 := by
      apply Nat.mod_eq_of_lt
      have hsub : p - s0 * s0 ≤ 2 * s0 := by omega
      have h1 : (p - s0 * s0) * 4 ≤ 2 * s0 * 4 := Nat.mul_le_mul_right 4 hsub
      omega
    have hrem : ((p - s0 * s0) * 4 % 2 ^ 32) ||| c = 4 * (p - s0 * s0) + c := by
      rw [hremnoov, Nat.mul_comm]
      have h2 := lor_small 2 (p - s0 * s0) c (by norm_num; omega)
      norm_num at h2
      exact h2
    have ha2 : y * 2 ^ (30 - 2 * i) * 4 % 2 ^ 32 = y % 4 ^ i * 2 ^ (32 - 2 * i) := by
      have h32 : (2 : Nat) ^ 32 = 4 ^ i * 2 ^ (32 - 2 * i) := by
        calc (2 : Nat) ^ 32 = 2 ^ (2 * i + (32 - 2 * i)) := by congr 1; omega
          _ = 2 ^ (2 * i) * 2 ^ (32 - 2 * i) := Nat.pow_add 2 _ _
          _ = 4 ^ i * 2 ^ (32 - 2 * i) := by rw [h2i4]
      have h3032 : (30 - 2 * i) + 2 = 32 - 2 * i := by omega
      have hmul : y * 2 ^ (30 - 2 * i) * 4 = y * 2 ^ (32 - 2 * i) := by
        rw [Nat.mul_assoc, show (4 : Nat) = 2 ^ 2 by norm_num, ← Nat.pow_add, h3032]
      rw [hmul, h32]
      exact Nat.mul_mod_mul_right _ _ _
    -- the square root of the extended prefix
    have hPlo : 2 * s0 * (2 * s0) ≤ 4 * p + c := by
      have he : 2 * s0 * (2 * s0) = 4 * (s0 * s0) := by ring
      omega
    have hPhi : 4 * p + c < (2 * s0 + 2) * (2 * s0 + 2) := by
      have he : (2 * s0 + 2) * (2 * s0 + 2) = 4 * (s0 * s0) + 8 * s0 + 4 := by ring
      omega
    have hstep :
        sqrtiStep (y * 2 ^ (32 - 2 * (i + 1)), p - s0 * s0, 2 * s0)
          = (y % 4 ^ i * 2 ^ (32 - 2 * i),
             4 * p + c - Nat.sqrt (4 * p + c) * Nat.sqrt (4 * p + c),
             2 * Nat.sqrt (4 * p + c)) := by
      simp only [sqrtiStep, hexp]
      rw [hroot, hc_def, hrem, ha2]
      have he1 : (2 * s0 + 1) * (2 * s0 + 1) = 4 * (s0 * s0) + 4 * s0 + 1 := by ring
      by_cases hbr : 4 * s0 < 4 * (p - s0 * s0) + c
      · have hsq : Nat.sqrt (4 * p + c) = 2 * s0 + 1 := by
          symm
          rw [Nat.eq_sqrt]
          constructor
          · omega
          · have he2 : (2 * s0 + 1 + 1) * (2 * s0 + 1 + 1)
                = (2 * s0 + 2) * (2 * s0 + 2) := by ring
            omega
        rw [if_pos hbr, hsq]
        have hlor1 : 4 * s0 ||| 1 = 4 * s0 + 1 := by
          have h2 := lor_small 1 (2 * s0) 1 (by norm_num)
          norm_num at h2
          rw [show 4 * s0 = 2 * (2 * s0) by ring, h2]
        rw [hlor1]
        simp only [Prod.mk.injEq, true_and]
        exact ⟨by omega, by ring⟩
      · have hsq : Nat.sqrt (4 * p + c) = 2 * s0 := by
          symm
          rw [Nat.eq_sqrt]
          refine ⟨hPlo, ?_⟩
          have he2 : (2 * s0 + 1) * (2 * s0 + 1) = 4 * (s0 * s0) + 4 * s0 + 1 := by ring
          omega
        rw [if_neg hbr, hsq]
        simp only [Prod.mk.injEq, true_and]
        have he3 : 2 * s0 * (2 * s0) = 4 * (s0 * s0) := by ring
        exact ⟨by omega, by ring⟩
    rw [sqrtiLoop_succ, hstep]
    have hrec := ih (4 * p + c) (y % 4 ^ i) (by omega)
      (by
        have hub : 4 * p + c < 4 * 4 ^ (15 - i) := by omega
        calc 4 * p + c < 4 * 4 ^ (15 - i) := hub
          _ = 4 ^ (16 - i) := by
              rw [← Nat.pow_succ']
              congr 1
              omega)
      (Nat.mod_lt _ hpow4)
    rw [hrec]
    congr 2
    have hdm := Nat.div_add_mod y (4 ^ i)
    calc (4 * p + c) * 4 ^ i + y % 4 ^ i
        = p * (4 ^ i * 4) + (4 ^ i * c + y % 4 ^ i) := by ring
      _ = p * 4 ^ (i + 1) + y := by rw [← Nat.pow_succ, hc, hdm]

/-- C `sqrti` computes the integer square root of any `uint32_t` input. -/
theorem sqrti_eq_sqrt (a : Nat) (ha : a < 2 ^ 32) : sqrti a = Nat.sqrt a := by
  have h := sqrtiLoop_inv 16 0 a (le_refl 16) (by norm_num) (by norm_num; exact ha)
  have he : (a * 2 ^ (32 - 2 * 16), 0 - Nat.sqrt 0 * Nat.sqrt 0, 2 * Nat.sqrt 0)
      = ((a : Nat), (0 : Nat), (0 : Nat)) := by norm_num
  rw [he] at h
  simp only [Nat.zero_mul, Nat.zero_add] at h
  unfold sqrti
  rw [Nat.mod_eq_of_lt ha, h, Nat.mul_div_cancel_left _ (by norm_num)]
  apply Nat.mod_eq_of_lt
  have h32 : (2 : Nat) ^ 32 = 2 ^ 16 * 2 ^ 16 := by norm_num
  exact Nat.sqrt_lt.mpr (by rw [← h32]; exact ha)

/-! ## Characterization of the triangle mirroring -/

theorem getD_set_self (l : List DV) (i : Nat) (v d : DV) (h : i < l.length) :
    (l.set i v).getD i d = v := by
  rw [List.getD_eq_getElem?_getD, List.getElem?_set_self', List.getElem?_eq_getElem h]
  rfl

theorem getD_set_other (l : List DV) (i j : Nat) (v d : DV) (h : i ≠ j) :
    (l.set i v).getD j d = l.getD j d := by
  rw [List.getD_eq_getElem?_getD, List.getElem?_set_ne h, ← List.getD_eq_getElem?_getD]

theorem copyCell_length (a : List DV) (src dst : Nat) :
    (copyCell a src dst).length = a.length := by
  unfold copyCell
  rw [List.length_set, List.length_set]

/-- Reads of a `copyCell` result, for a target buffer long enough to hold the
written pair. -/
theorem copyCell_getD (a : List DV) (src dst t : Nat) (d : DV)
    (hlen : dst + 1 < a.length) :
    (copyCell a src dst).getD t d =
      if t = dst then a.getD src DV.undef
      else if t = dst + 1 then a.getD (src + 1) DV.undef
      else a.getD t d := by
  unfold copyCell
  by_cases h1 : t = dst + 1
  · rw [if_neg (by omega), if_pos h1, h1, getD_set_self _ _ _ _ (by rw [List.length_set]; omega)]
  · rw [getD_set_other _ _ _ _ _ (by omega)]
    by_cases h2 : t = dst
    · rw [if_pos h2, h2, getD_set_self _ _ _ _ (by omega)]
    · rw [if_neg h2, if_neg h1, getD_set_other _ _ _ _ _ (by omega)]

/-- Flat `(row, col, component)` coordinates determine each other. -/
theorem cellIdx_inj {N r c r2 c2 : Nat} (hc : c < N) (hc2 : c2 < N)
    (h : r * N + c = r2 * N + c2) : r = r2 ∧ c = c2 := by
  rcases Nat.lt_trichotomy r r2 with h1 | h1 | h1
  · exfalso
    have h2 : r + 1 ≤ r2 := h1
    have h3 : (r + 1) * N ≤ r2 * N := Nat.mul_le_mul_right N h2
    have h4 : (r + 1) * N = r * N + N := by ring
    omega
  · subst h1
    omega
  · exfalso
    have h2 : r2 + 1 ≤ r := h1
    have h3 : (r2 + 1) * N ≤ r * N := Nat.mul_le_mul_right N h2
    have h4 : (r2 + 1) * N = r2 * N + N := by ring
    omega

theorem flatIdx_inj {N x y u v b b2 : Nat} (hy : y < N) (hv : v < N)
    (hb : b < 2) (hb2 : b2 < 2)
    (h : 2 * (x * N + y) + b = 2 * (u * N + v) + b2) : x = u ∧ y = v ∧ b = b2 := by
  have h1 : x * N + y = u * N + v ∧ b = b2 := by omega
  obtain ⟨h4, h5⟩ := cellIdx_inj hy hv h1.1
  exact ⟨h4, h5, h1.2⟩

theorem mem_strictUpperPairs {N : Nat} (q : Nat × Nat) :
    q ∈ strictUpperPairs N ↔ q.1 < q.2 ∧ q.2 < N := by
  obtain ⟨i, j⟩ := q
  simp only [strictUpperPairs, List.mem_flatMap, List.mem_map, List.mem_range]
  constructor
  · rintro ⟨a, ha, k, hk, heq⟩
    simp only [Prod.mk.injEq] at heq
    omega
  · rintro ⟨h1, h2⟩
    refine ⟨i, by omega, j - i - 1, by omega, ?_⟩
    simp only [Prod.mk.injEq]
    exact ⟨trivial, by omega⟩

/-- A cell-pair bound: for `x, y < N`, the flat pair index fits in the
`2·N·N` buffer. -/
theorem flatIdx_lt {N x y : Nat} (hx : x < N) (hy : y < N) :
    2 * (x * N + y) + 1 < 2 * N * N := by
  have h1 : x + 1 ≤ N := hx
  have h2 : (x + 1) * N ≤ N * N := Nat.mul_le_mul_right N h1
  have h3 : (x + 1) * N = x * N + N := by ring
  have h4 : 2 * N * N = 2 * (N * N) := by ring
  omega

/-- What the `fill_lower` fold computes, for an arbitrary list of strict
upper-triangle pairs: a strict-lower cell `(r, c)` whose mirror pair `(c, r)`
occurs in the list receives the mirrored value; everything else is
untouched. -/
theorem foldl_copy_lower (N : Nat) :
    ∀ ps : List (Nat × Nat), (∀ q ∈ ps, q.1 < q.2 ∧ q.2 < N) →
    ∀ a : List DV, 2 * N * N ≤ a.length →
    ∀ r c b : Nat, r < N → c < N → b < 2 →
      (ps.foldl
          (fun acc ij => copyCell acc (2 * (ij.1 * N + ij.2)) (2 * (ij.2 * N + ij.1)))
          a).getD (2 * (r * N + c) + b) DV.undef
        = if (c, r) ∈ ps ∧ c < r then a.getD (2 * (c * N + r) + b) DV.undef
          else a.getD (2 * (r * N + c) + b) DV.undef := by
  intro ps
  induction ps with
  | nil =>
    intro _ a _ r c b _ _ _
    simp
  | cons hd tl ih =>
    intro hps a hlen r c b hr hc hb
    obtain ⟨i, j⟩ := hd
    obtain ⟨hij1, hij2⟩ := hps (i, j) (List.mem_cons_self _ _)
    have htl : ∀ q ∈ tl, q.1 < q.2 ∧ q.2 < N := fun q hq => hps q (List.mem_cons_of_mem _ hq)
    have hiN : i < N := lt_trans hij1 hij2
    have hdst : 2 * (j * N + i) + 1 < a.length :=
      lt_of_lt_of_le (flatIdx_lt hij2 hiN) hlen
    simp only [List.foldl_cons]
    rw [ih htl _ (by rw [copyCell_length]; exact hlen) r c b hr hc hb]
    by_cases hA : (c, r) ∈ tl ∧ c < r
    · rw [if_pos hA,
        if_pos (show (c, r) ∈ (i, j) :: tl ∧ c < r from ⟨List.mem_cons_of_mem _ hA.1, hA.2⟩)]
      rw [copyCell_getD _ _ _ _ _ hdst]
      have hn1 : 2 * (c * N + r) + b ≠ 2 * (j * N + i) := by
        intro heq
        have heq0 : 2 * (c * N + r) + b = 2 * (j * N + i) + 0 := by omega
        obtain ⟨e1, e2, e3⟩ := flatIdx_inj hr hiN hb (by norm_num) heq0
        omega
      have hn2 : 2 * (c * N + r) + b ≠ 2 * (j * N + i) + 1 := by
        intro heq
        obtain ⟨e1, e2, e3⟩ := flatIdx_inj hr hiN hb (by norm_num) heq
        omega
      rw [if_neg hn1, if_neg hn2]
    · rw [if_neg hA]
      by_cases hHd : c = i ∧ r = j
      · obtain ⟨e1, e2⟩ := hHd
        subst e1
        subst e2
        rw [if_pos (show (c, r) ∈ (c, r) :: tl ∧ c < r from ⟨List.mem_cons_self _ _, hij1⟩)]
        rw [copyCell_getD _ _ _ _ _ hdst]
        interval_cases b
        · rw [if_pos (by omega)]
          norm_num
        · rw [if_neg (by omega), if_pos (by omega)]
      · have hcond : ¬((c, r) ∈ (i, j) :: tl ∧ c < r) := by
          rintro ⟨hm, hlt⟩
          rcases List.mem_cons.mp hm with hh | ht
          · simp only [Prod.mk.injEq] at hh
            exact hHd ⟨hh.1, hh.2⟩
          · exact hA ⟨ht, hlt⟩
        rw [if_neg hcond, copyCell_getD _ _ _ _ _ hdst]
        have hn1 : 2 * (r * N + c) + b ≠ 2 * (j * N + i) := by
          intro heq
          have heq0 : 2 * (r * N + c) + b = 2 * (j * N + i) + 0 := by omega
          obtain ⟨e1, e2, e3⟩ := flatIdx_inj hc hiN hb (by norm_num) heq0
          exact hHd ⟨e2, e1⟩
        have hn2 : 2 * (r * N + c) + b ≠ 2 * (j * N + i) + 1 := by
          intro heq
          obtain ⟨e1, e2, e3⟩ := flatIdx_inj hc hiN hb (by norm_num) heq
          exact hHd ⟨e2, e1⟩
        rw [if_neg hn1, if_neg hn2]

/-- The mirror statement for the `fill_upper` fold: a strict-upper cell
`(r, c)` occurring in the list receives the value of its mirror `(c, r)`;
everything else is untouched. -/
theorem foldl_copy_upper (N : Nat) :
    ∀ ps : List (Nat × Nat), (∀ q ∈ ps, q.1 < q.2 ∧ q.2 < N) →
    ∀ a : List DV, 2 * N * N ≤ a.length →
    ∀ r c b : Nat, r < N → c < N → b < 2 →
      (ps.foldl
          (fun acc ij => copyCell acc (2 * (ij.2 * N + ij.1)) (2 * (ij.1 * N + ij.2)))
          a).getD (2 * (r * N + c) + b) DV.undef
        = if (r, c) ∈ ps ∧ r < c then a.getD (2 * (c * N + r) + b) DV.undef
          else a.getD (2 * (r * N + c) + b) DV.undef := by
  intro ps
  induction ps with
  | nil =>
    intro _ a _ r c b _ _ _
    simp
  | cons hd tl ih =>
    intro hps a hlen r c b hr hc hb
    obtain ⟨i, j⟩ := hd
    obtain ⟨hij1, hij2⟩ := hps (i, j) (List.mem_cons_self _ _)
    have htl : ∀ q ∈ tl, q.1 < q.2 ∧ q.2 < N := fun q hq => hps q (List.mem_cons_of_mem _ hq)
    have hiN : i < N := lt_trans hij1 hij2
    have hdst : 2 * (i * N + j) + 1 < a.length :=
      lt_of_lt_of_le (flatIdx_lt hiN hij2) hlen
    simp only [List.foldl_cons]
    rw [ih htl _ (by rw [copyCell_length]; exact hlen) r c b hr hc hb]
    by_cases hA : (r, c) ∈ tl ∧ r < c
    · rw [if_pos hA,
        if_pos (show (r, c) ∈ (i, j) :: tl ∧ r < c from ⟨List.mem_cons_of_mem _ hA.1, hA.2⟩)]
      rw [copyCell_getD _ _ _ _ _ hdst]
      have hn1 : 2 * (c * N + r) + b ≠ 2 * (i * N + j) := by
        intro heq
        have heq0 : 2 * (c * N + r) + b = 2 * (i * N + j) + 0 := by omega
        obtain ⟨e1, e2, e3⟩ := flatIdx_inj hr hij2 hb (by norm_num) heq0
        omega
      have hn2 : 2 * (c * N + r) + b ≠ 2 * (i * N + j) + 1 := by
        intro heq
        obtain ⟨e1, e2, e3⟩ := flatIdx_inj hr hij2 hb (by norm_num) heq
        omega
      rw [if_neg hn1, if_neg hn2]
    · rw [if_neg hA]
      by_cases hHd : r = i ∧ c = j
      · obtain ⟨e1, e2⟩ := hHd
        subst e1
        subst e2
        rw [if_pos (show (r, c) ∈ (r, c) :: tl ∧ r < c from ⟨List.mem_cons_self _ _, hij1⟩)]
        rw [copyCell_getD _ _ _ _ _ hdst]
        interval_cases b
        · rw [if_pos (by omega)]
          norm_num
        · rw [if_neg (by omega), if_pos (by omega)]
      · have hcond : ¬((r, c) ∈ (i, j) :: tl ∧ r < c) := by
          rintro ⟨hm, hlt⟩
          rcases List.mem_cons.mp hm with hh | ht
          · simp only [Prod.mk.injEq] at hh
            exact hHd ⟨hh.1, hh.2⟩
          · exact hA ⟨ht, hlt⟩
        rw [if_neg hcond, copyCell_getD _ _ _ _ _ hdst]
        have hn1 : 2 * (r * N + c) + b ≠ 2 * (i * N + j) := by
          intro heq
          have heq0 : 2 * (r * N + c) + b = 2 * (i * N + j) + 0 := by omega
          obtain ⟨e1, e2, e3⟩ := flatIdx_inj hc hij2 hb (by norm_num) heq0
          exact hHd ⟨e1, e2⟩
        have hn2 : 2 * (r * N + c) + b ≠ 2 * (i * N + j) + 1 := by
          intro heq
          obtain ⟨e1, e2, e3⟩ := flatIdx_inj hc hij2 hb (by norm_num) heq
          exact hHd ⟨e1, e2⟩
        rw [if_neg hn1, if_neg hn2]

/-- Pointwise description of `fill_lower`: strict-lower cells receive their
upper mirror, all other entries are unchanged. -/
theorem fill_lower_getD (a : List DV) (N r c b : Nat) (hlen : 2 * N * N ≤ a.length)
    (hr : r < N) (hc : c < N) (hb : b < 2) :
    (fill_lower a N).getD (2 * (r * N + c) + b) DV.undef
      = if c < r then a.getD (2 * (c * N + r) + b) DV.undef
        else a.getD (2 * (r * N + c) + b) DV.undef := by
  unfold fill_lower
  rw [foldl_copy_lower N (strictUpperPairs N)
    (fun q hq => (mem_strictUpperPairs q).mp hq) a hlen r c b hr hc hb]
  by_cases h : c < r
  · rw [if_pos h, if_pos ⟨(mem_strictUpperPairs (c, r)).mpr ⟨h, hr⟩, h⟩]
  · rw [if_neg h, if_neg (by rintro ⟨_, hlt⟩; exact h hlt)]

/-- Pointwise description of `fill_upper`: strict-upper cells receive their
lower mirror, all other entries are unchanged. -/
theorem fill_upper_getD (a : List DV) (N r c b : Nat) (hlen : 2 * N * N ≤ a.length)
    (hr : r < N) (hc : c < N) (hb : b < 2) :
    (fill_upper a N).getD (2 * (r * N + c) + b) DV.undef
      = if r < c then a.getD (2 * (c * N + r) + b) DV.undef
        else a.getD (2 * (r * N + c) + b) DV.undef := by
  unfold fill_upper
  rw [foldl_copy_upper N (strictUpperPairs N)
    (fun q hq => (mem_strictUpperPairs q).mp hq) a hlen r c b hr hc hb]
  by_cases h : r < c
  · rw [if_pos h, if_pos ⟨(mem_strictUpperPairs (r, c)).mpr ⟨h, hc⟩, h⟩]
  · rw [if_neg h, if_neg (by rintro ⟨_, hlt⟩; exact h hlt)]

/-! ## The chunker never processes a partial line -/

theorem rfindChar_none (l : List Char) (ch : Char) :
    rfindChar l ch = none → ch ∉ l := by
  induction l with
  | nil => intro _ h; cases h
  | cons a t ih =>
    intro h
    unfold rfindChar at h
    cases hrec : rfindChar t ch with
    | some i => rw [hrec] at h; cases h
    | none =>
      rw [hrec] at h
      by_cases ha : a = ch
      · rw [if_pos ha] at h; cases h
      · rw [if_neg ha] at h
        intro hmem
        rcases List.mem_cons.mp hmem with he | ht
        · exact ha he.symm
        · exact ih hrec ht

theorem rfindChar_some (l : List Char) (ch : Char) (p : Nat) :
    rfindChar l ch = some p →
      p < l.length ∧ l.getD p ' ' = ch ∧ ch ∉ l.drop (p + 1) := by
  induction l generalizing p with
  | nil => intro h; cases h
  | cons a t ih =>
    intro h
    unfold rfindChar at h
    cases hrec : rfindChar t ch with
    | some i =>
      rw [hrec] at h
      have hp : p = i + 1 := by
        simp only [Option.some.injEq] at h
        omega
      subst hp
      obtain ⟨h1, h2, h3⟩ := ih i hrec
      refine ⟨by simp; omega, ?_, ?_⟩
      · simpa using h2
      · simpa using h3
    | none =>
      rw [hrec] at h
      by_cases ha : a = ch
      · rw [if_pos ha] at h
        have hp : p = 0 := by
          simp only [Option.some.injEq] at h
          omega
        subst hp
        refine ⟨by simp, by simpa using ha, ?_⟩
        simpa using rfindChar_none t ch hrec
      · rw [if_neg ha] at h
        cases h

/-- The delivered lines are an in-order prefix of the clean lines of the
input list, and are exactly those when no line fails. -/
theorem processLines_fed (c : Context) (ls : List (List Char)) :
    (processLines c ls).2.2.2 <+: (ls.map strip_comment).filter (fun l => !l.isEmpty)
      ∧ ((processLines c ls).1 = SR_OK →
          (processLines c ls).2.2.2 = (ls.map strip_comment).filter (fun l => !l.isEmpty)) := by
  induction ls generalizing c with
  | nil => exact ⟨ List.nil_prefix, fun _ => rfl⟩
  | cons l ls ih =>
    have hfilter : ((l :: ls).map strip_comment).filter (fun x => !x.isEmpty)
        = if strip_comment l = [] then (ls.map strip_comment).filter (fun x => !x.isEmpty)
          else strip_comment l :: (ls.map strip_comment).filter (fun x => !x.isEmpty) := by
      by_cases he : strip_comment l = []
      · simp [List.filter_cons, he]
      · simp [List.filter_cons, he]
    rw [hfilter]
    simp only [processLines]
    by_cases he : strip_comment l = []
    · rw [if_pos he, if_pos he]
      exact ih c
    · rw [if_neg he, if_neg he]
      cases hpl : process_line c (strip_comment l) with
      | mk ret rest =>
        cases rest with
        | mk c2 evs =>
          cases ret with
          | SR_OK =>
            obtain ⟨ih1, ih2⟩ := ih c2
            refine ⟨?_, fun hok => ?_⟩
            · exact List.cons_prefix_cons.mpr ⟨rfl, ih1⟩
            · show strip_comment l :: (processLines c2 ls).2.2.2
                = strip_comment l :: (ls.map strip_comment).filter (fun x => !x.isEmpty)
              rw [ih2 hok]
          | SR_ERR =>
            refine ⟨?_, fun hok => ?_⟩
            · exact List.cons_prefix_cons.mpr ⟨rfl, List.nil_prefix⟩
            · exact RetCode.noConfusion hok

/-- Splitting the normalized buffer at the last newline. -/
theorem split_at_rfind (l : List Char) (p : Nat) (h : rfindChar l '\n' = some p) :
    l = l.take p ++ '\n' :: l.drop (p + 1) := by
  obtain ⟨h1, h2, _⟩ := rfindChar_some l '\n' p h
  calc l = l.take p ++ l.drop p := (List.take_append_drop p l).symm
    _ = l.take p ++ '\n' :: l.drop (p + 1) := by
        rw [List.drop_eq_getElem_cons h1]
        congr 2
        rw [← h2, List.getD_eq_getElem]

/-! ## Small facts about the emitters and the sweep store -/

/-- C `send_sweep_information` only ever rewrites the two sweep buffers. -/
theorem send_sweep_information_shape (c : Context) :
    ∃ sf sd, (send_sweep_information c).1 = { c with sweep_freq := sf, sweep_data := sd } := by
  unfold send_sweep_information
  split
  · exact ⟨c.sweep_freq, c.sweep_data, rfl⟩
  · exact ⟨[], [], rfl⟩

theorem send_sweep_information_sweep_count (c : Context) :
    (send_sweep_information c).1.sweep_count = 0 := by
  unfold send_sweep_information
  split
  next h => exact h
  next => rfl

theorem prepare_sweep_mem_shape (c : Context) :
    ∃ n, prepare_sweep_mem c = { c with sweep_size := n } := by
  unfold prepare_sweep_mem
  split
  · exact ⟨_, rfl⟩
  · split
    · exact ⟨_, rfl⟩
    · exact ⟨c.sweep_size, rfl⟩

/-- The outcome of a successful `move_data_to_sweep`: the set is consumed,
the frequency entry `f · frequency_unit` is appended, `last_freq` is
updated, and all bookkeeping fields other than `sweep_size` are unchanged. -/
theorem move_data_to_sweep_ok (c : Context) (h : c.num_ports ≠ 0) :
    (move_data_to_sweep c).1 = SR_OK
    ∧ (move_data_to_sweep c).2.data_set = []
    ∧ (move_data_to_sweep c).2.sweep_freq
        = c.sweep_freq ++ [qmul (c.data_set.getD 0 0) c.frequency_unit]
    ∧ (move_data_to_sweep c).2.last_freq = c.data_set.getD 0 0
    ∧ (move_data_to_sweep c).2.state = c.state
    ∧ (move_data_to_sweep c).2.num_ports = c.num_ports
    ∧ (move_data_to_sweep c).2.num_vals_per_set = c.num_vals_per_set
    ∧ (move_data_to_sweep c).2.frequency_unit = c.frequency_unit
    ∧ (move_data_to_sweep c).2.file_version = c.file_version := by
  obtain ⟨n, hpsm⟩ := prepare_sweep_mem_shape c
  simp only [move_data_to_sweep, if_neg h, hpsm]
  simp

/-! ## Claims -/

/-- Claim C10: in every parser state other than PS_START_FILE and
PS_OPTION_LINE, a logical line beginning with `#` is silently ignored:
`process_line` returns SR_OK, publishes nothing, and leaves the entire
parser context (state, num_ports, num_vals_per_set, option settings,
accumulated data, sweep store) unchanged. -/
theorem claim_C10 (c : Context) (line : List Char)
    (h1 : c.state ≠ PS_START_FILE) (h2 : c.state ≠ PS_OPTION_LINE)
    (h3 : line.getD 0 '\x00' = '#') :
    process_line c line = (SR_OK, c, []) := by
  unfold process_line
  rw [if_pos ⟨⟨h1, h2⟩, h3⟩]

/-- Witness for C10 at a concrete context and line. -/
theorem claim_C10_witness :
    process_line { initContext with state := PS_KEYWORDS } (("# MHZ RI" : String).toList)
      = (SR_OK, { initContext with state := PS_KEYWORDS }, []) :=
  claim_C10 _ _ (by decide) (by decide) (by decide)

/-- Claim C6: a `[NOISE DATA]` keyword line in PS_DATA_LINES fails with
SR_ERR and no state change when `num_ports ≠ 2`; with `num_ports = 2` it
returns SR_OK, publishes exactly the flush of the sweep accumulated so far,
rescales the sweep capacity by `2·N²/5`, sets `num_vals_per_set = 5` and
enters PS_NOISE_DATA (with the sweep store reset). -/
theorem claim_C6 (c : Context) (line : List Char)
    (hst : c.state = PS_DATA_LINES)
    (h0 : line.getD 0 '\x00' = '[')
    (hkw : (fwd_to line (("[NOISE DATA]" : String).toList)).isSome = true) :
    (c.num_ports ≠ 2 →
        process_line c line = (SR_ERR, c, []) ∧ c.state ≠ PS_NOISE_DATA)
    ∧ (c.num_ports = 2 →
        (process_line c line).1 = SR_OK
        ∧ (process_line c line).2.1.state = PS_NOISE_DATA
        ∧ (process_line c line).2.1.num_vals_per_set = 5
        ∧ (process_line c line).2.1.sweep_size
            = c.sweep_size * c.num_ports * c.num_ports * 2 / 5
        ∧ (process_line c line).2.2 = (send_sweep_information c).2
        ∧ (process_line c line).2.1.sweep_count = 0) := by
  have hne : ¬((c.state ≠ PS_START_FILE ∧ c.state ≠ PS_OPTION_LINE)
      ∧ line.getD 0 '\x00' = '#') := by
    rintro ⟨_, hh⟩
    rw [h0] at hh
    cases hh
  obtain ⟨sf, sd, hss⟩ := send_sweep_information_shape c
  constructor
  · intro hnp
    constructor
    · unfold process_line
      rw [if_neg hne]
      simp only [hst]
      rw [if_pos ⟨h0, hkw⟩, if_pos hnp]
    · rw [hst]
      decide
  · intro hnp
    have hr : process_line c line
        = (SR_OK,
           { (send_sweep_information c).1 with
              sweep_size := (send_sweep_information c).1.sweep_size
                * (send_sweep_information c).1.num_ports
                * (send_sweep_information c).1.num_ports * 2 / 5,
              state := PS_NOISE_DATA,
              num_vals_per_set := 5 },
           (send_sweep_information c).2) := by
      unfold process_line
      rw [if_neg hne]
      simp only [hst]
      rw [if_pos ⟨h0, hkw⟩, if_neg (by omega)]
    rw [hr]
    refine ⟨rfl, rfl, rfl, ?_, rfl, ?_⟩
    · rw [hss]
    · exact send_sweep_information_sweep_count c

/-- Witness for C6 at a concrete two-port context. -/
theorem claim_C6_witness :
    (process_line
        { initContext with state := PS_DATA_LINES, num_ports := 2, sweep_size := 512 }
        (("[NOISE DATA]" : String).toList)).2.1.num_vals_per_set = 5 := by
  have h := claim_C6
    { initContext with state := PS_DATA_LINES, num_ports := 2, sweep_size := 512 }
    (("[NOISE DATA]" : String).toList) rfl (by decide) (by decide)
  exact (h.2 rfl).2.2.1

/-- Claim C8 counterexample: the version string `2.05` is not `2.0`, yet the
line `[VERSION] 2.05` is accepted and sets `file_version = 2` — the code
only tests `g_str_has_prefix(arg, "2.0")`. -/
theorem claim_C8_counterexample :
    parse_version_line initContext (("[VERSION] 2.05" : String).toList)
      = (SR_OK, { initContext with file_version := 2 })
    ∧ chug ((("[VERSION] 2.05" : String).toList).drop 9) ≠ ("2.0" : String).toList := by
  constructor
  · decide
  · decide

/-- Claim C8 (amended): a version line sets `file_version = 2` exactly when
it carries the `[VERSION]` keyword and its whitespace-chugged argument
BEGINS WITH the string `2.0` (prefix match, so e.g. `2.05` is also
accepted); every other line fails with SR_ERR and no context change. -/
theorem claim_C8_amended (c : Context) (line : List Char) :
    parse_version_line c line
      = if (("[VERSION]" : String).toList.isPrefixOf line
            ∧ ("2.0" : String).toList.isPrefixOf
                (chug (line.drop (("[VERSION]" : String).toList.length)))) then
          (SR_OK, { c with file_version := 2 })
        else (SR_ERR, c) := by
  unfold parse_version_line
  by_cases h1 : ("[VERSION]" : String).toList.isPrefixOf line
  · by_cases h2 : ("2.0" : String).toList.isPrefixOf
        (chug (line.drop (("[VERSION]" : String).toList.length)))
    · rw [if_pos h1, if_pos h2, if_pos ⟨h1, h2⟩]
    · rw [if_pos h1, if_neg h2, if_neg (by rintro ⟨_, hh⟩; exact h2 hh)]
  · rw [if_neg h1, if_neg (by rintro ⟨hh, _⟩; exact h1 hh)]

/-- Claim C4 counterexample: an accumulated data-set of length 10 has
`(10 − 1) / 2 = 4 = 2²` a perfect square, so the claim predicts successful
inference, but `calc_num_ports` fails (it computes `sqrti(10 / 2) = 2` and
`2·2²+1 = 9 ≠ 10`). -/
theorem claim_C4_counterexample :
    (calc_num_ports
        { initContext with data_set := [1, 2, 3, 4, 5, 6, 7, 8, 9, 10] }).1 = SR_ERR
    ∧ (10 - 1) / 2 = 2 ^ 2 := by
  constructor
  · decide
  · decide

/-- Claim C4 (amended): version-1 inference computes
`num_ports = sqrti(num_vals_per_set / 2)` — dividing the raw count, not the
count minus one — and succeeds iff the accumulated length is odd and
`(len − 1) / 2` is a perfect square (equivalently `len = 2N² + 1`). -/
theorem claim_C4_amended (c : Context) (hlen : c.data_set_count < 2 ^ 32) :
    ((calc_num_ports c).1 = SR_OK ↔
        c.data_set_count % 2 = 1
          ∧ ∃ n : Nat, (c.data_set_count - 1) / 2 = n * n)
    ∧ (calc_num_ports c).2.num_ports = sqrti (c.data_set_count / 2) := by
  have hhalf : c.data_set_count / 2 < 2 ^ 32 := lt_of_le_of_lt (Nat.div_le_self _ _) hlen
  have hs := sqrti_eq_sqrt (c.data_set_count / 2) hhalf
  constructor
  · unfold calc_num_ports
    constructor
    · intro hok
      have hne : ¬(sqrti (c.data_set_count / 2) * sqrti (c.data_set_count / 2) * 2 + 1
          ≠ c.data_set_count) := by
        intro hne
        rw [if_pos hne] at hok
        cases hok
      have heq : sqrti (c.data_set_count / 2) * sqrti (c.data_set_count / 2) * 2 + 1
          = c.data_set_count := by omega
      refine ⟨by omega, sqrti (c.data_set_count / 2), by omega⟩
    · rintro ⟨hodd, n, hsq⟩
      have hlval : c.data_set_count = 2 * (n * n) + 1 := by omega
      have hdiv : c.data_set_count / 2 = n * n := by omega
      have hroot : sqrti (c.data_set_count / 2) = n := by
        rw [hs, hdiv, Nat.sqrt_eq]
      rw [if_neg (by rw [hroot]; omega)]
  · simp only [calc_num_ports]
    split
    · rfl
    · rfl

/-- Witness for C4 (amended) at the length-9 set `[f, v…]` of a one-sweep
two-port file. -/
theorem claim_C4_amended_witness :
    ((calc_num_ports
        { initContext with data_set := [1, 2, 3, 4, 5, 6, 7, 8, 9] }).1 = SR_OK ↔
      Context.data_set_count
          { initContext with data_set := [1, 2, 3, 4, 5, 6, 7, 8, 9] } % 2 = 1
        ∧ ∃ n : Nat,
            (Context.data_set_count
                { initContext with data_set := [1, 2, 3, 4, 5, 6, 7, 8, 9] } - 1) / 2
              = n * n) := by
  have h := claim_C4_amended
    { initContext with data_set := [1, 2, 3, 4, 5, 6, 7, 8, 9] } (by decide)
  exact h.1

/-- Claim C5: for any payload stored in UPPER or LOWER layout, the mirroring
step makes the emitted N×N matrix of complex pairs symmetric:
`fill_lower` copies each strict-upper pair `(i, j)` (`i < j`) onto `(j, i)`
preserving both components of the pair, and afterwards `M[i,j] = M[j,i]`
holds at every cell, componentwise; `fill_upper` is its exact mirror. -/
theorem claim_C5 (a : List DV) (N : Nat) (hlen : 2 * N * N ≤ a.length) :
    (∀ i j b : Nat, i < N → j < N → b < 2 → i < j →
        (fill_lower a N).getD (2 * (j * N + i) + b) DV.undef
          = a.getD (2 * (i * N + j) + b) DV.undef)
    ∧ (∀ i j b : Nat, i < N → j < N → b < 2 →
        (fill_lower a N).getD (2 * (i * N + j) + b) DV.undef
          = (fill_lower a N).getD (2 * (j * N + i) + b) DV.undef)
    ∧ (∀ i j b : Nat, i < N → j < N → b < 2 →
        (fill_upper a N).getD (2 * (i * N + j) + b) DV.undef
          = (fill_upper a N).getD (2 * (j * N + i) + b) DV.undef) := by
  refine ⟨?_, ?_, ?_⟩
  · intro i j b hi hj hb hij
    rw [fill_lower_getD a N j i b hlen hj hi hb, if_pos hij]
  · intro i j b hi hj hb
    rcases Nat.lt_trichotomy i j with h | h | h
    · rw [fill_lower_getD a N i j b hlen hi hj hb, if_neg (by omega),
        fill_lower_getD a N j i b hlen hj hi hb, if_pos h]
    · subst h
      rfl
    · rw [fill_lower_getD a N i j b hlen hi hj hb, if_pos h,
        fill_lower_getD a N j i b hlen hj hi hb, if_neg (by omega)]
  · intro i j b hi hj hb
    rcases Nat.lt_trichotomy i j with h | h | h
    · rw [fill_upper_getD a N i j b hlen hi hj hb, if_pos h,
        fill_upper_getD a N j i b hlen hj hi hb, if_neg (by omega)]
    · subst h
      rfl
    · rw [fill_upper_getD a N i j b hlen hi hj hb, if_neg (by omega),
        fill_upper_getD a N j i b hlen hj hi hb, if_pos h]

/-- Witness for C5 on a concrete 2×2 buffer. -/
theorem claim_C5_witness :
    (fill_lower
        [DV.lit 1, DV.lit 2, DV.lit 3, DV.lit 4, DV.lit 5, DV.lit 6, DV.lit 7, DV.lit 8]
        2).getD (2 * (1 * 2 + 0) + 0) DV.undef
      = ([DV.lit 1, DV.lit 2, DV.lit 3, DV.lit 4, DV.lit 5, DV.lit 6, DV.lit 7,
          DV.lit 8] : List DV).getD (2 * (0 * 2 + 1) + 0) DV.undef := by
  have h := claim_C5
    [DV.lit 1, DV.lit 2, DV.lit 3, DV.lit 4, DV.lit 5, DV.lit 6, DV.lit 7, DV.lit 8]
    2 (by decide)
  exact h.1 0 1 0 (by decide) (by decide) (by decide) (by decide)

/-- Claim C7: on a non-EOF flush the retained buffer tail never contains a
newline — data after the last newline (a partial line) is never processed —
and either nothing is consumed (empty buffer or no newline yet, the whole
normalized buffer stays buffered), or the normalized buffer splits as
`pre ++ '\n' ++ tail` with the lines handed to `process_line` being, in
input order, a prefix of the clean logical lines of `pre` (and exactly all
of them when no line fails). -/
theorem claim_C7 (inp : SrInput) :
    '\n' ∉ (process_buffer inp false).2.1.buf
    ∧ ((process_buffer inp false).2.2.2 = []
          ∧ (process_buffer inp false).2.1.buf = normalizeBuf inp.buf
        ∨ ∃ pre,
            normalizeBuf inp.buf = pre ++ '\n' :: (process_buffer inp false).2.1.buf
            ∧ (process_buffer inp false).2.2.2 <+: cleanLines pre
            ∧ ((process_buffer inp false).1 = SR_OK →
                (process_buffer inp false).2.2.2 = cleanLines pre)) := by
  by_cases hbuf : inp.buf = []
  · simp only [process_buffer, if_pos hbuf]
    refine ⟨?_, Or.inl ⟨trivial, ?_⟩⟩
    · rw [hbuf]
      simp
    · rw [hbuf]
      rfl
  · simp only [process_buffer, if_neg hbuf]
    cases hrf : rfindChar (normalizeBuf inp.buf) '\n' with
    | none =>
      simp only [hrf]
      exact ⟨rfindChar_none _ _ hrf, Or.inl ⟨rfl, rfl⟩⟩
    | some p =>
      simp only [hrf]
      obtain ⟨hp1, hp2, hp3⟩ := rfindChar_some _ _ _ hrf
      refine ⟨hp3, Or.inr ⟨(normalizeBuf inp.buf).take p, ?_, ?_, ?_⟩⟩
      · exact split_at_rfind _ _ hrf
      · exact (processLines_fed _ _).1
      · exact (processLines_fed _ _).2

/-- Claim C2: the number-format conversion is applied to the first
`num_vals_per_set / 2` complex pairs of the OUTPUT block rather than to the
entries copied from the input, so for a version-2 UPPER two-port input in MA
format the emitted diagonal pair `(S22)` = `(31, 33)` is published without
the degree-to-radian conversion of its angle (the claim and §4.8 require
every copied entry to be converted before mirroring, which would give
`(31, deg2rad 33)`). -/
theorem claim_C2_bug :
    (processLines initContext
        [("[VERSION] 2.0" : String).toList,
         ("# HZ S MA R 50" : String).toList,
         ("[NUMBER OF PORTS] 2" : String).toList,
         ("[MATRIX FORMAT] UPPER" : String).toList,
         ("[NETWORK DATA]" : String).toList,
         ("1 11 12 21 22 31 33" : String).toList,
         ("[END]" : String).toList]).1 = SR_OK
    ∧ Ev.sweepData false
        [DV.lit 11, DV.deg2rad (DV.lit 12), DV.lit 21, DV.deg2rad (DV.lit 22),
         DV.lit 21, DV.deg2rad (DV.lit 22), DV.lit 31, DV.lit 33]
      ∈ (processLines initContext
          [("[VERSION] 2.0" : String).toList,
           ("# HZ S MA R 50" : String).toList,
           ("[NUMBER OF PORTS] 2" : String).toList,
           ("[MATRIX FORMAT] UPPER" : String).toList,
           ("[NETWORK DATA]" : String).toList,
           ("1 11 12 21 22 31 33" : String).toList,
           ("[END]" : String).toList]).2.2.1
    ∧ DV.lit 33 ≠ DV.deg2rad (DV.lit 33) := by
  refine ⟨by decide, by decide, by decide⟩

/-- Claim C9 counterexample: the version-1 file `# HZ S MA R 50 / 0 0.5 90`
is accepted (SR_OK) and the emitted frequency axis is `[0]` — not strictly
positive.  The parser never checks the sign of frequency tokens. -/
theorem claim_C9_counterexample :
    (endInput (receive initInput
        (("# HZ S MA R 50\n0 0.5 90\n" : String).toList)).2.1).1 = SR_OK
    ∧ Ev.freqAxis [0]
        ∈ (endInput (receive initInput
            (("# HZ S MA R 50\n0 0.5 90\n" : String).toList)).2.1).2.2
    ∧ ¬ (0 : ℚ) > 0 := by
  refine ⟨by decide, by decide, by decide⟩

/-- Claim C9 (amended): each stored sweep frequency equals
`f · frequency_unit` where `f` is the first token of the completed set; it
is strictly positive whenever `f` is (the recognized units are positive),
but positivity of `f` itself is not enforced by the parser. -/
theorem claim_C9_amended (c : Context) (h : c.num_ports ≠ 0)
    (hu : 0 < c.frequency_unit) (hf : 0 < c.data_set.getD 0 0) :
    (move_data_to_sweep c).2.sweep_freq
      = c.sweep_freq ++ [qmul (c.data_set.getD 0 0) c.frequency_unit]
    ∧ 0 < qmul (c.data_set.getD 0 0) c.frequency_unit := by
  refine ⟨(move_data_to_sweep_ok c h).2.2.1, ?_⟩
  rw [qmul_eq_mul]
  exact mul_pos hf hu

/-- Witness for C9 (amended) at a concrete context. -/
theorem claim_C9_amended_witness : 0 < qmul 1 1 := by
  have h := claim_C9_amended
    { initContext with num_ports := 1, frequency_unit := 1, data_set := [1, 2, 3] }
    (by decide) (by decide) (by decide)
  exact h.2

/-- Claim C1 counterexample: in this version-1 run the fourth line starts a
new data-set whose frequency (2) is EQUAL to `last_freq` (2) — not strictly
less — and the parser still transitions to PS_NOISE_DATA, because the code
tests `last_freq >= data_set[0]`. -/
theorem claim_C1_counterexample :
    (processLines initContext
        [("# HZ S MA R 50" : String).toList, ("1 5 6" : String).toList,
         ("2 7 8" : String).toList]).2.1.state = PS_DATA_LINES
    ∧ (processLines initContext
        [("# HZ S MA R 50" : String).toList, ("1 5 6" : String).toList,
         ("2 7 8" : String).toList]).2.1.last_freq = 2
    ∧ parse_data_line_numbers (("2 9 10" : String).toList) = some [2, 9, 10]
    ∧ (process_line
        (processLines initContext
          [("# HZ S MA R 50" : String).toList, ("1 5 6" : String).toList,
           ("2 7 8" : String).toList]).2.1
        (("2 9 10" : String).toList)).2.1.state = PS_NOISE_DATA
    ∧ (process_line
        (processLines initContext
          [("# HZ S MA R 50" : String).toList, ("1 5 6" : String).toList,
           ("2 7 8" : String).toList]).2.1
        (("2 9 10" : String).toList)).1 = SR_OK := by
  refine ⟨by decide, by decide, by decide, by decide, by decide⟩

/-- Claim C3 counterexample: with `num_vals_per_set = 3` inferred, the line
`2 7 8 9 10` overfills the set (5 > 3); the parser warns, completes the set
from the first three tokens, and the excess tokens 9, 10 are DISCARDED —
the accumulating buffer is reset to empty instead of retaining them as the
start of the next set. -/
theorem claim_C3_counterexample :
    (processLines initContext
        [("# HZ S MA R 50" : String).toList, ("1 5 6" : String).toList,
         ("2 7 8 9 10" : String).toList]).1 = SR_OK
    ∧ Ev.warnExcess
        ∈ (processLines initContext
            [("# HZ S MA R 50" : String).toList, ("1 5 6" : String).toList,
             ("2 7 8 9 10" : String).toList]).2.2.1
    ∧ (processLines initContext
        [("# HZ S MA R 50" : String).toList, ("1 5 6" : String).toList,
         ("2 7 8 9 10" : String).toList]).2.1.num_vals_per_set = 3
    ∧ (processLines initContext
        [("# HZ S MA R 50" : String).toList, ("1 5 6" : String).toList,
         ("2 7 8 9 10" : String).toList]).2.1.data_set = [] := by
  refine ⟨by decide, by decide, by decide, by decide⟩

/-- Claim C3 (amended): when `num_vals_per_set` is known and a data line
makes the accumulated count exceed it, the parser emits the non-fatal
excess warning and completes one sweep point from the first
`num_vals_per_set` tokens, but the excess tokens are DISCARDED — the
accumulating buffer is reset to empty, so the next set starts from the next
line, not from the excess. -/
theorem claim_C3_amended (c : Context) (line : List Char) (vals : List ℚ)
    (h2 : c.file_version = 2) (h3 : c.num_ports ≠ 0) (h6 : 0 < c.num_vals_per_set)
    (hp : parse_data_line_numbers line = some vals) (hv : vals ≠ [])
    (hcnt : c.num_vals_per_set < c.data_set_count + vals.length) :
    (parse_data_line c line).1 = SR_OK
    ∧ Ev.warnExcess ∈ (parse_data_line c line).2.2
    ∧ (parse_data_line c line).2.1.data_set = []
    ∧ (parse_data_line c line).2.1.sweep_count = c.sweep_count + 1 := by
  have h3' : (add_data_to_set c vals).num_ports ≠ 0 := h3
  obtain ⟨ret4, c4, hmo⟩ : ∃ r c4, move_data_to_sweep (add_data_to_set c vals) = (r, c4) :=
    ⟨_, _, rfl⟩
  have hmok := move_data_to_sweep_ok (add_data_to_set c vals) h3'
  rw [hmo] at hmok
  obtain ⟨hret, hds, hsf, -⟩ := hmok
  have hret' : ret4 = SR_OK := hret
  subst hret'
  have hcount : (add_data_to_set c vals).data_set_count
      = c.data_set_count + vals.length := by
    show (c.data_set ++ vals).length = c.data_set.length + vals.length
    exact List.length_append _ _
  have hinf : pdl_infer c vals = (SR_OK, c, []) := by
    unfold pdl_infer
    rw [if_neg (by rintro ⟨hh, -⟩; exact h3 hh)]
  have hnz : pdl_noise_check (add_data_to_set c vals) = (add_data_to_set c vals, []) := by
    unfold pdl_noise_check
    rw [if_neg (by
      rintro ⟨hh, -⟩
      have hh' : c.file_version = 1 := hh
      omega)]
  have hcmp : pdl_complete (add_data_to_set c vals) = (SR_OK, c4, [Ev.warnExcess]) := by
    unfold pdl_complete
    rw [if_pos (show 0 < (add_data_to_set c vals).num_vals_per_set from h6)]
    rw [if_pos (show (add_data_to_set c vals).num_vals_per_set
        < (add_data_to_set c vals).data_set_count by
      show c.num_vals_per_set < (c.data_set ++ vals).length
      rw [List.length_append]
      exact hcnt)]
    rw [if_pos (show (add_data_to_set c vals).num_vals_per_set
        ≤ (add_data_to_set c vals).data_set_count by
      show c.num_vals_per_set ≤ (c.data_set ++ vals).length
      rw [List.length_append]
      exact le_of_lt hcnt)]
    rw [hmo]
  have hr : parse_data_line c line = (SR_OK, c4, [Ev.warnExcess]) := by
    simp only [parse_data_line, hp]
    rw [if_neg (by simpa using hv)]
    rw [hinf]
    dsimp only
    rw [hnz]
    dsimp only
    rw [hcmp]
    simp
  rw [hr]
  refine ⟨rfl, by simp, hds, ?_⟩
  show c4.sweep_freq.length = c.sweep_freq.length + 1
  rw [hsf]
  simp [add_data_to_set]

/-- Witness for C3 (amended): a two-token overflow of a one-port set. -/
theorem claim_C3_amended_witness :
    (parse_data_line
        { initContext with file_version := 2, num_ports := 1, num_vals_per_set := 3, frequency_unit := 1 }
        (("1 2 3 4 5" : String).toList)).2.1.data_set = [] := by
  have h := claim_C3_amended
    { initContext with file_version := 2, num_ports := 1, num_vals_per_set := 3, frequency_unit := 1 }
    (("1 2 3 4 5" : String).toList) [1, 2, 3, 4, 5]
    rfl (by decide) (by decide) (by decide) (by decide) (by decide)
  exact h.2.2.1

/-- Claim C1 (amended): in version 1, inside PS_DATA_LINES, a line starting
a fresh data-set with frequency `f` triggers the noise transition exactly
when `f ≤ last_freq` — equality also transitions, because the code tests
`last_freq >= data_set[0]` — and on the transition the parser flushes the
accumulated sweep through the emitter, rescales the sweep capacity by
`2·N²/5`, sets `num_vals_per_set = 5`, and keeps the new frequency in the
accumulating set, which now belongs to the noise section. -/
theorem claim_C1_amended (c : Context) (line : List Char) (f : ℚ)
    (h1 : c.file_version = 1) (h2 : c.state = PS_DATA_LINES) (h3 : c.num_ports ≠ 0)
    (h4 : c.data_set = []) (h5 : 0 < c.sweep_count) (h6 : 1 < c.num_vals_per_set)
    (hp : parse_data_line_numbers line = some [f]) :
    ((parse_data_line c line).2.1.state = PS_NOISE_DATA ↔ f ≤ c.last_freq)
    ∧ (f ≤ c.last_freq →
        (parse_data_line c line).2.1.num_vals_per_set = 5
        ∧ (parse_data_line c line).2.1.sweep_size
            = c.sweep_size * c.num_ports * c.num_ports * 2 / 5
        ∧ (parse_data_line c line).2.2
            = (send_sweep_information (add_data_to_set c [f])).2
        ∧ (parse_data_line c line).2.1.data_set = [f])
    ∧ (c.last_freq < f →
        (parse_data_line c line).2.1.state = PS_DATA_LINES
        ∧ (parse_data_line c line).2.1.num_vals_per_set = c.num_vals_per_set
        ∧ (parse_data_line c line).2.2 = [])
    ∧ (parse_data_line c line).1 = SR_OK := by
  have hds2 : (add_data_to_set c [f]).data_set = [f] := by
    show c.data_set ++ [f] = [f]
    rw [h4]
    rfl
  have hcnt2 : (add_data_to_set c [f]).data_set_count = 1 := by
    show (add_data_to_set c [f]).data_set.length = 1
    rw [hds2]
    rfl
  obtain ⟨sf, sd, hss⟩ := send_sweep_information_shape (add_data_to_set c [f])
  have hinf : pdl_infer c [f] = (SR_OK, c, []) := by
    unfold pdl_infer
    rw [if_neg (by rintro ⟨hh, -⟩; exact h3 hh)]
  by_cases hf : f ≤ c.last_freq
  · have hnz : pdl_noise_check (add_data_to_set c [f])
        = ({ (send_sweep_information (add_data_to_set c [f])).1 with
              sweep_size := (send_sweep_information (add_data_to_set c [f])).1.sweep_size
                * (send_sweep_information (add_data_to_set c [f])).1.num_ports
                * (send_sweep_information (add_data_to_set c [f])).1.num_ports * 2 / 5,
              state := PS_NOISE_DATA,
              num_vals_per_set := 5 },
           (send_sweep_information (add_data_to_set c [f])).2) := by
      unfold pdl_noise_check
      rw [if_pos (show (add_data_to_set c [f]).file_version = 1
          ∧ (add_data_to_set c [f]).state = PS_DATA_LINES
          ∧ 0 < (add_data_to_set c [f]).sweep_count
          ∧ 0 < (add_data_to_set c [f]).data_set_count
          ∧ (add_data_to_set c [f]).data_set.getD 0 0
              ≤ (add_data_to_set c [f]).last_freq from
        ⟨h1, h2, h5, by rw [hcnt2]; norm_num, by rw [hds2]; exact hf⟩)]
    have hRds : ((send_sweep_information (add_data_to_set c [f])).1).data_set = [f] := by
      rw [hss]
      exact hds2
    have hRcnt : Context.data_set_count
        { (send_sweep_information (add_data_to_set c [f])).1 with
           sweep_size := (send_sweep_information (add_data_to_set c [f])).1.sweep_size
             * (send_sweep_information (add_data_to_set c [f])).1.num_ports
             * (send_sweep_information (add_data_to_set c [f])).1.num_ports * 2 / 5,
           state := PS_NOISE_DATA,
           num_vals_per_set := 5 } = 1 := by
      show ((send_sweep_information (add_data_to_set c [f])).1).data_set.length = 1
      rw [hRds]
      rfl
    have hcmp : pdl_complete
        { (send_sweep_information (add_data_to_set c [f])).1 with
           sweep_size := (send_sweep_information (add_data_to_set c [f])).1.sweep_size
             * (send_sweep_information (add_data_to_set c [f])).1.num_ports
             * (send_sweep_information (add_data_to_set c [f])).1.num_ports * 2 / 5,
           state := PS_NOISE_DATA,
           num_vals_per_set := 5 }
        = (SR_OK,
           { (send_sweep_information (add_data_to_set c [f])).1 with
              sweep_size := (send_sweep_information (add_data_to_set c [f])).1.sweep_size
                * (send_sweep_information (add_data_to_set c [f])).1.num_ports
                * (send_sweep_information (add_data_to_set c [f])).1.num_ports * 2 / 5,
              state := PS_NOISE_DATA,
              num_vals_per_set := 5 }, []) := by
      unfold pdl_complete
      rw [if_pos (by norm_num : (0 : Nat) < 5)]
      rw [hRcnt]
      rw [if_neg (by norm_num : ¬ ((5 : Nat) < 1)), if_neg (by norm_num : ¬ ((5 : Nat) ≤ 1))]
    have hr : parse_data_line c line
        = (SR_OK,
           { (send_sweep_information (add_data_to_set c [f])).1 with
              sweep_size := (send_sweep_information (add_data_to_set c [f])).1.sweep_size
                * (send_sweep_information (add_data_to_set c [f])).1.num_ports
                * (send_sweep_information (add_data_to_set c [f])).1.num_ports * 2 / 5,
              state := PS_NOISE_DATA,
              num_vals_per_set := 5 },
           [] ++ (send_sweep_information (add_data_to_set c [f])).2 ++ []) := by
      simp only [parse_data_line, hp]
      rw [if_neg (by simp)]
      rw [hinf]
      dsimp only
      rw [hnz]
      dsimp only
      rw [hcmp]
    rw [hr]
    refine ⟨?_, fun _ => ⟨rfl, ?_, by simp, hRds⟩, fun hlt => absurd hf (not_le.mpr hlt), rfl⟩
    · exact ⟨fun _ => hf, fun _ => rfl⟩
    · show (send_sweep_information (add_data_to_set c [f])).1.sweep_size
          * (send_sweep_information (add_data_to_set c [f])).1.num_ports
          * (send_sweep_information (add_data_to_set c [f])).1.num_ports * 2 / 5
        = c.sweep_size * c.num_ports * c.num_ports * 2 / 5
      rw [hss]
      rfl
  · have hnz : pdl_noise_check (add_data_to_set c [f]) = (add_data_to_set c [f], []) := by
      unfold pdl_noise_check
      rw [if_neg (by
        rintro ⟨-, -, -, -, hle⟩
        rw [hds2] at hle
        exact hf hle)]
    have hcmp : pdl_complete (add_data_to_set c [f])
        = (SR_OK, add_data_to_set c [f], []) := by
      unfold pdl_complete
      rw [if_pos (show 0 < (add_data_to_set c [f]).num_vals_per_set from by
        show 0 < c.num_vals_per_set
        omega)]
      rw [hcnt2]
      rw [if_neg (show ¬ ((add_data_to_set c [f]).num_vals_per_set < 1) from by
        show ¬ (c.num_vals_per_set < 1)
        omega)]
      rw [if_neg (show ¬ ((add_data_to_set c [f]).num_vals_per_set ≤ 1) from by
        show ¬ (c.num_vals_per_set ≤ 1)
        omega)]
    have hr : parse_data_line c line = (SR_OK, add_data_to_set c [f], [] ++ [] ++ []) := by
      simp only [parse_data_line, hp]
      rw [if_neg (by simp)]
      rw [hinf]
      dsimp only
      rw [hnz]
      dsimp only
      rw [hcmp]
    rw [hr]
    have hstate : (add_data_to_set c [f]).state = PS_DATA_LINES := h2
    refine ⟨?_, fun hle => absurd hle hf, fun _ => ⟨hstate, rfl, rfl⟩, rfl⟩
    constructor
    · intro hns
      rw [hstate] at hns
      cases hns
    · intro hle
      exact absurd hle hf

/-- Witness for C1 (amended): a fresh set starting at the same frequency as
the last stored point. -/
theorem claim_C1_amended_witness :
    ((parse_data_line
        { initContext with file_version := 1, state := PS_DATA_LINES, num_ports := 1, num_vals_per_set := 3, last_freq := 5, frequency_unit := 1, sweep_freq := [5], sweep_data := [[DV.lit 2, DV.lit 3]], sweep_size := 512 }
        (("5" : String).toList)).2.1.state = PS_NOISE_DATA ↔ (5 : ℚ) ≤ 5) := by
  have h := claim_C1_amended
    { initContext with file_version := 1, state := PS_DATA_LINES, num_ports := 1, num_vals_per_set := 3, last_freq := 5, frequency_unit := 1, sweep_freq := [5], sweep_data := [[DV.lit 2, DV.lit 3]], sweep_size := 512 }
    (("5" : String).toList) 5 rfl rfl (by decide) rfl (by decide) (by decide) (by decide)
  exact h.1

end Touchstone
